import Mathlib

/-!
Verification of the `ai-paper-reader` backend storage layer.

The development shallowly embeds the workspace/note/paper storage code of
`apr_backend` (`src/config.py`, `src/api/notes.py`, `src/api/papers.py`,
`src/api/pdf.py`, `src/api/ai.py`) over an explicit filesystem state.

The filesystem is modelled as a workspace root whose entries are either
plain files or paper directories; a directory is a list of `(filename,
data)` pairs *in OS scan order* (the order `os.scandir`, and hence
`pathlib.Path.glob` / `iterdir`, yields entries in — Python does not sort
them).  Text files are read back with Python's universal-newline
translation, as `Path.read_text` does; `Path.write_text` on a POSIX host
writes the string verbatim.
-/

deriving instance DecidableEq for Except

namespace APR

/-- Contents of one on-disk file: text (read/written via `write_text` /
`read_text`) or raw bytes (`write_bytes`). -/
inductive FData
  | text (s : String)
  | bin (bs : List Nat)
  deriving DecidableEq

/-- A paper directory: files in OS scan order. -/
abbrev DirFiles := List (String × FData)

/-- An entry of the workspace root: a plain file or a paper directory. -/
inductive Entry
  | file (d : FData)
  | dir (files : DirFiles)
  deriving DecidableEq

/-- The workspace root: entries in OS scan order. -/
abbrev Workspace := List (String × Entry)

/-- Names of the files of a directory, in scan order. -/
def names (fs : DirFiles) : List String := fs.map (·.1)

/-- Look up a workspace-root entry by name. -/
def lookupEntry : Workspace → String → Option Entry
  | [], _ => none
  | e :: rest, n => if e.1 = n then some e.2 else lookupEntry rest n

/-- Look up a paper directory by name (`none` if absent or a plain file). -/
def lookupDir (w : Workspace) (n : String) : Option DirFiles :=
  match lookupEntry w n with
  | some (Entry.dir fs) => some fs
  | _ => none

/-- Look up a file's data inside a directory listing. -/
def dirLookup : DirFiles → String → Option FData
  | [], _ => none
  | p :: rest, f => if p.1 = f then some p.2 else dirLookup rest f

/-- Write (create or overwrite) a file in a directory listing; a new file
appears at the end of the scan order. -/
def writeInDir : DirFiles → String → FData → DirFiles
  | [], f, x => [(f, x)]
  | p :: rest, f, x => if p.1 = f then (p.1, x) :: rest else p :: writeInDir rest f x

/-- Remove a file from a directory listing (`unlink`; no-op if absent). -/
def removeInDir : DirFiles → String → DirFiles
  | [], _ => []
  | p :: rest, f => if p.1 = f then removeInDir rest f else p :: removeInDir rest f

/-- Apply a directory transformation to the entry when it is a directory. -/
def entryUpdate (g : DirFiles → DirFiles) : Entry → Entry
  | Entry.dir fs => Entry.dir (g fs)
  | x => x

/-- Transform the directory named `dirName` in the workspace. -/
def updateDir (w : Workspace) (dirName : String) (g : DirFiles → DirFiles) : Workspace :=
  w.map (fun e => if e.1 = dirName then (e.1, entryUpdate g e.2) else e)

/-- `<workspace>/<dirName>/<fname> ← d`. -/
def writeFile (w : Workspace) (dirName fname : String) (d : FData) : Workspace :=
  updateDir w dirName (fun fs => writeInDir fs fname d)

/-- `unlink <workspace>/<dirName>/<fname>`. -/
def removeFile (w : Workspace) (dirName fname : String) : Workspace :=
  updateDir w dirName (fun fs => removeInDir fs fname)

/-- Read a file's data, `none` when the directory or file is absent. -/
def readFile (w : Workspace) (dirName fname : String) : Option FData :=
  (lookupDir w dirName).bind (fun fs => dirLookup fs fname)

/-- `Path.exists()` for `<workspace>/<dirName>/<fname>`. -/
def fileExists (w : Workspace) (dirName fname : String) : Bool :=
  (readFile w dirName fname).isSome

/-- `Path.mkdir(parents=True, exist_ok=True)` at the workspace root:
no-op when the directory exists, `none` (a raised `FileExistsError`) when a
plain file of that name exists. -/
def mkdirP (w : Workspace) (n : String) : Option Workspace :=
  match lookupEntry w n with
  | some (Entry.dir _) => some w
  | some (Entry.file _) => none
  | none => some (w ++ [(n, Entry.dir [])])

/-- Universal-newline translation on a character list: `\r\n` and lone
`\r` become `\n`.  This is what Python's text-mode read (`newline=None`)
applies to file contents. -/
def univNLAux : List Char → List Char
  | [] => []
  | '\r' :: '\n' :: rest => '\n' :: univNLAux rest
  | '\r' :: rest => '\n' :: univNLAux rest
  | c :: rest => c :: univNLAux rest

/-- Universal-newline translation of a string. -/
def univNL (s : String) : String := ⟨univNLAux s.data⟩

/-- `Path.read_text(encoding="utf-8")`: universal-newline translation of
the stored text; `none` (an exception) when the file is absent or not
decodable text. -/
def readText (w : Workspace) (dirName fname : String) : Option String :=
  match readFile w dirName fname with
  | some (FData.text s) => some (univNL s)
  | _ => none

/-- `"".join(c for c in paper_id if c.isalnum() or c in "-_ ")`
(`notes.py`/`papers.py`); Python's `isalnum` is modelled on the ASCII
alphanumerics, which is what every identifier in the claims uses. -/
def sanitize (s : String) : String :=
  ⟨s.data.filter (fun c => c.isAlphanum || c = '-' || c = '_' || c = ' ')⟩

/-- Index of the last `'.'` of a character list (`str.rfind('.')`),
`none` when there is no dot; `i` is the index of the head. -/
def lastDotIdxAux : List Char → Nat → Option Nat
  | [], _ => none
  | c :: rest, i =>
    match lastDotIdxAux rest (i + 1) with
    | some j => some j
    | none => if c = '.' then some i else none

/-- `pathlib.PurePath.stem`: the file name without its last suffix; a name
whose only dot is leading or trailing is its own stem. -/
def pstem (s : String) : String :=
  match lastDotIdxAux s.data 0 with
  | some i => if 0 < i ∧ i < s.data.length - 1 then ⟨s.data.take i⟩ else s
  | none => s

/-- `suf` is a suffix of `s` (`str.endswith` / what `glob("*" + suf)`
matches on a file name). -/
def endsWithStr (suf s : String) : Bool := suf.data.isSuffixOf s.data

/-- Python's `str.lower()` (ASCII range, which is all the code uses it on). -/
def lowerStr (s : String) : String := ⟨s.data.map Char.toLower⟩

/-- File names matched by `paper_dir.glob("*.pdf")`, in scan order. -/
def globPdf (fs : DirFiles) : List String :=
  (names fs).filter (fun n => endsWithStr ".pdf" n)

/-- File names matched by `paper_dir.glob("*.md")`, in scan order. -/
def globMd (fs : DirFiles) : List String :=
  (names fs).filter (fun n => endsWithStr ".md" n)

/-- `StorageSettings.find_pdf` (`config.py`): `None` when the directory
does not exist, else the first `*.pdf` glob result (scan order), if any. -/
def find_pdf (paperDir : Option DirFiles) : Option String :=
  match paperDir with
  | none => none
  | some fs => (globPdf fs).head?

/-- `StorageSettings.find_note` (`config.py`): `note.md` when present,
else the first `*.md` file whose stem equals the directory name, else the
first `*.md` file, else `None`. -/
def find_note (paperDir : Option DirFiles) (dirName : String) : Option String :=
  match paperDir with
  | none => none
  | some fs =>
    if fs.any (fun f => f.1 = "note.md") then some "note.md"
    else
      match (globMd fs).find? (fun f => pstem f = dirName) with
      | some f => some f
      | none => (globMd fs).head?

/-- `StorageSettings.get_note_path` (`config.py`): the discovered note
file name, or the fallback `<paper_name>.md`. -/
def get_note_path (w : Workspace) (paperName : String) : String :=
  (find_note (lookupDir w paperName) paperName).getD (paperName ++ ".md")

/-- `StorageSettings.get_paper_path` (`config.py`): the discovered PDF
file name, or the fallback `<paper_name>.pdf`. -/
def get_paper_path (w : Workspace) (paperName : String) : String :=
  (find_pdf (lookupDir w paperName)).getD (paperName ++ ".pdf")

/-- `d.is_dir() and self.find_pdf(d)` for one workspace entry. -/
def hasPdf : Entry → Bool
  | Entry.dir fs => (find_pdf (some fs)).isSome
  | Entry.file _ => false

/-- Lexicographic (code-point) order on character lists: the order Python
string comparison uses. -/
def charListLe : List Char → List Char → Bool
  | [], _ => true
  | _ :: _, [] => false
  | a :: as, b :: bs => if a = b then charListLe as bs else decide (a < b)

/-- Python's `str` ordering (`a <= b`): lexicographic by code point. -/
def strLe (a b : String) : Bool := charListLe a.data b.data

/-- Python's `sorted` on strings: a stable sort under `strLe`. -/
def pySorted (l : List String) : List String :=
  l.insertionSort (fun a b => strLe a b = true)

/-- `StorageSettings.list_papers` (`config.py`): names of the workspace
subdirectories containing a PDF, sorted (Python `sorted`, lexicographic). -/
def list_papers (w : Workspace) : List String :=
  pySorted ((w.filter (fun e => hasPdf e.2)).map (·.1))

/-! ## Note store (`src/api/notes.py`) -/

/-- Error taxonomy of the note endpoints: `NotFound` (404), `Conflict`
(409) and internal server errors (500, an exception caught at the
boundary or escaping the handler). -/
inductive ApiErr
  | notFound
  | conflict
  | internal
  deriving DecidableEq

/-- The client-visible payload of a successful note operation: the
Markdown content and its rendered HTML (the metadata fields — sizes and
timestamps — are not modelled). -/
structure NoteView where
  content : String
  html : String
  deriving DecidableEq

/-- Modelled from the spec: the Markdown-to-HTML collaborator (the
third-party `markdown` library wrapped by `render_markdown`) is external
to the repository source.  Per the spec it converts Markdown text to HTML
(tables/footnotes/toc extensions) and produces non-empty HTML for
non-empty content; modelled as wrapping the text in a paragraph element. -/
def render_markdown (s : String) : String :=
  if s = "" then "" else "<p>" ++ s ++ "</p>"

/-- `NoteFileLock` used as a context manager: `__enter__` opens (creates)
the sidecar `<note-path>.lock` and flocks it; `__exit__` — run on every
exit of the `with` block, exceptional or not — unlinks the sidecar.  The
body's result (normal or exception, i.e. `Except.error`) passes through. -/
def withNoteLock (w : Workspace) (dirName fname : String)
    (body : Workspace → Workspace × Except ApiErr α) : Workspace × Except ApiErr α :=
  let w1 := writeFile w dirName (fname ++ ".lock") (FData.text "")
  let r := body w1
  (removeFile r.1 dirName (fname ++ ".lock"), r.2)

/-- `notes.py::create_note`: sanitize, `mkdir(parents=True, exist_ok=True)`
the paper directory, resolve the note path, 409 when it exists, else write
the content verbatim under the lock and return content plus HTML. -/
def createNote (w : Workspace) (paperId content : String) :
    Workspace × Except ApiErr NoteView :=
  let safeId := sanitize paperId
  match mkdirP w safeId with
  | none => (w, Except.error ApiErr.internal)
  | some w0 =>
    let fname := get_note_path w0 safeId
    if fileExists w0 safeId fname then (w0, Except.error ApiErr.conflict)
    else
      withNoteLock w0 safeId fname (fun w1 =>
        (writeFile w1 safeId fname (FData.text content),
         Except.ok ⟨content, render_markdown content⟩))

/-- `notes.py::get_note`: 404 when the resolved note path does not exist,
else read the content under the lock and return it with its HTML. -/
def getNote (w : Workspace) (paperId : String) : Workspace × Except ApiErr NoteView :=
  let safeId := sanitize paperId
  let fname := get_note_path w safeId
  if fileExists w safeId fname then
    withNoteLock w safeId fname (fun w1 =>
      match readText w1 safeId fname with
      | some content => (w1, Except.ok ⟨content, render_markdown content⟩)
      | none => (w1, Except.error ApiErr.internal))
  else (w, Except.error ApiErr.notFound)

/-- `notes.py::update_note`: 404 when the resolved note path does not
exist, else overwrite the content under the lock. -/
def updateNote (w : Workspace) (paperId content : String) :
    Workspace × Except ApiErr NoteView :=
  let safeId := sanitize paperId
  let fname := get_note_path w safeId
  if fileExists w safeId fname then
    withNoteLock w safeId fname (fun w1 =>
      (writeFile w1 safeId fname (FData.text content),
       Except.ok ⟨content, render_markdown content⟩))
  else (w, Except.error ApiErr.notFound)

/-- The merge `patch_note` computes: `new_content = existing`; the
separator is appended only when both `existing` and the request content
are non-empty (truthy); then the request content is appended. -/
def patchMerge (existing appended : String) : String :=
  if existing ≠ "" ∧ appended ≠ "" then existing ++ "\n\n---\n\n" ++ appended
  else existing ++ appended

/-- `notes.py::patch_note`: 404 when the resolved note path does not
exist, else — under one lock acquisition — read the existing content,
merge per `patchMerge`, write the result back, and return it. -/
def patchNote (w : Workspace) (paperId appended : String) :
    Workspace × Except ApiErr NoteView :=
  let safeId := sanitize paperId
  let fname := get_note_path w safeId
  if fileExists w safeId fname then
    withNoteLock w safeId fname (fun w1 =>
      match readText w1 safeId fname with
      | some existing =>
        let newContent := patchMerge existing appended
        (writeFile w1 safeId fname (FData.text newContent),
         Except.ok ⟨newContent, render_markdown newContent⟩)
      | none => (w1, Except.error ApiErr.internal))
  else (w, Except.error ApiErr.notFound)

/-- `notes.py::delete_note`: 404 when the resolved note path does not
exist, else unlink it (no lock is taken). -/
def deleteNote (w : Workspace) (paperId : String) : Workspace × Except ApiErr Unit :=
  let safeId := sanitize paperId
  let fname := get_note_path w safeId
  if fileExists w safeId fname then (removeFile w safeId fname, Except.ok ())
  else (w, Except.error ApiErr.notFound)

/-- `fileExists` at the resolved note path (the sanitized id directory and
the `get_note_path` file name): whether a note resolves for this paper id
in this workspace. -/
def noteExists (w : Workspace) (paperId : String) : Bool :=
  fileExists w (sanitize paperId) (get_note_path w (sanitize paperId))

/-! ## Uploads (`src/api/papers.py`, `src/api/pdf.py`) -/

/-- The attributes of the `fastapi.status` (starlette) module referenced
by this codebase, with their integer values.  An attribute access on a
name absent from the module raises `AttributeError`. -/
def starletteStatusAttr : String → Option Nat
  | "HTTP_400_BAD_REQUEST" => some 400
  | "HTTP_401_UNAUTHORIZED" => some 401
  | "HTTP_402_PAYMENT_REQUIRED" => some 402
  | "HTTP_404_NOT_FOUND" => some 404
  | "HTTP_409_CONFLICT" => some 409
  | "HTTP_413_REQUEST_ENTITY_TOO_LARGE" => some 413
  | "HTTP_429_TOO_MANY_REQUESTS" => some 429
  | "HTTP_500_INTERNAL_SERVER_ERROR" => some 500
  | _ => none

/-- Status code of the response produced by
`raise HTTPException(status_code=status.<name>, ...)`: the constant's
value, or 500 when the attribute access itself raises `AttributeError`
(the unhandled exception surfaces as an internal server error). -/
def raiseStatus (name : String) : Nat := (starletteStatusAttr name).getD 500

/-- `papers.py::upload_paper`: reject non-`.pdf` filenames with 400;
reject bodies over `max_file_size_mb * 1024 * 1024` bytes via
`status.HTTP_413_REQUEST_ENTITY_TOO_LOCUM`; otherwise create the paper
directory from the sanitized filename stem and write the bytes at
`get_paper_path` (metadata extraction and thumbnailing are the external
PDF collaborator and degrade to nothing on failure; they are modelled in
degraded form).  Returns the workspace and either the paper id or an
error status code. -/
def uploadPaper (maxMb : Nat) (w : Workspace) (filename : String)
    (content : List Nat) : Workspace × Except Nat String :=
  if filename = "" ∨ ¬ endsWithStr ".pdf" (lowerStr filename) then
    (w, Except.error (raiseStatus "HTTP_400_BAD_REQUEST"))
  else if content.length > maxMb * 1024 * 1024 then
    (w, Except.error (raiseStatus "HTTP_413_REQUEST_ENTITY_TOO_LOCUM"))
  else
    let safeName := sanitize (pstem filename)
    match mkdirP w safeName with
    | none => (w, Except.error 500)
    | some w1 =>
      (writeFile w1 safeName (get_paper_path w1 safeName) (FData.bin content),
       Except.ok safeName)

/-- Write a file at the workspace root (`pdf.py` stores PDFs directly in
the papers directory); a directory of the same name makes `write_bytes`
raise, caught and surfaced as 500. -/
def writeRootFile (w : Workspace) (fname : String) (d : FData) :
    Workspace × Except Nat Unit :=
  match lookupEntry w fname with
  | some (Entry.dir _) => (w, Except.error 500)
  | some (Entry.file _) =>
    (w.map (fun e => if e.1 = fname then (e.1, Entry.file d) else e), Except.ok ())
  | none => (w ++ [(fname, Entry.file d)], Except.ok ())

/-- `pdf.py::upload_pdf`: reject non-`.pdf` filenames with 400; reject
bodies over `max_file_size_mb * 1024 * 1024` bytes with
`status.HTTP_413_REQUEST_ENTITY_TOO_LARGE` (413); otherwise save the
bytes as `<hash>.pdf` at the storage root. -/
def uploadPdf (maxMb : Nat) (hash : List Nat → String) (w : Workspace)
    (filename : String) (content : List Nat) : Workspace × Except Nat String :=
  if filename = "" ∨ ¬ endsWithStr ".pdf" (lowerStr filename) then
    (w, Except.error (raiseStatus "HTTP_400_BAD_REQUEST"))
  else if content.length > maxMb * 1024 * 1024 then
    (w, Except.error (raiseStatus "HTTP_413_REQUEST_ENTITY_TOO_LARGE"))
  else
    let fid := hash content
    match writeRootFile w (fid ++ ".pdf") (FData.bin content) with
    | (w1, Except.ok _) => (w1, Except.ok fid)
    | (w1, Except.error c) => (w1, Except.error c)

/-! ## Upstream LLM error mapping (`src/api/ai.py::ask_ai`) -/

/-- Python's `needle in haystack` on character lists. -/
def containsSub (needle : List Char) : List Char → Bool
  | [] => needle.isEmpty
  | c :: rest => needle.isPrefixOf (c :: rest) || containsSub needle rest

/-- Python's `needle in haystack` on strings. -/
def strIn (needle hay : String) : Bool := containsSub needle.data hay.data

/-- No file anywhere in a paper directory of the workspace has a name
ending in `.lock` (no lock sidecar persists). -/
def noLocks (w : Workspace) : Bool :=
  w.all (fun e => match e.2 with
    | Entry.dir fs => (names fs).all (fun n => !(endsWithStr ".lock" n))
    | Entry.file _ => true)

/-- The spec's wording of `find_pdf` (§4.1: "returns the
lexicographically-first `.pdf` file in the directory, or absent"), for
comparison with the code's `find_pdf`. -/
def find_pdf_lexSpec (paperDir : Option DirFiles) : Option String :=
  match paperDir with
  | none => none
  | some fs => (pySorted (globPdf fs)).head?

/-- The `except` chain of `ask_ai`: sniff the upstream error message and
pick the response status — rate limit 429, authentication 401, quota
exhaustion 402, anything else 500. -/
def classifyAiError (msg : String) : Nat :=
  if strIn "rate_limit" (lowerStr msg) || strIn "429" msg then 429
  else if strIn "authentication" (lowerStr msg) || strIn "401" msg then 401
  else if strIn "insufficient_quota" (lowerStr msg) then 402
  else 500

/-! ## Basic lemmas about the filesystem model -/

@[simp] theorem names_nil : names ([] : DirFiles) = [] := rfl

@[simp] theorem names_cons (p : String × FData) (fs : DirFiles) :
    names (p :: fs) = p.1 :: names fs := rfl

@[simp] theorem names_append (l l' : DirFiles) :
    names (l ++ l') = names l ++ names l' := by
  simp [names]

theorem lookupEntry_eq_none_iff {w : Workspace} {n : String} :
    lookupEntry w n = none ↔ ∀ e ∈ w, e.1 ≠ n := by
  induction w with
  | nil => simp [lookupEntry]
  | cons e rest ih => by_cases he : e.1 = n <;> simp [lookupEntry, he, ih]

theorem lookupEntry_append_of_none {w₁ : Workspace} (w₂ : Workspace) {n : String}
    (h : lookupEntry w₁ n = none) : lookupEntry (w₁ ++ w₂) n = lookupEntry w₂ n := by
  induction w₁ with
  | nil => rfl
  | cons e rest ih =>
    by_cases he : e.1 = n
    · simp [lookupEntry, he] at h
    · simp only [lookupEntry, he, if_false, List.cons_append] at h ⊢
      exact ih h

theorem updateDir_of_none {w : Workspace} {d : String} (g : DirFiles → DirFiles)
    (h : lookupEntry w d = none) : updateDir w d g = w := by
  rw [lookupEntry_eq_none_iff] at h
  induction w with
  | nil => rfl
  | cons e rest ih =>
    have he := h e (by simp)
    have hrest := ih (fun e' he' => h e' (by simp [he']))
    simp only [updateDir, List.map_cons, he, if_false]
    simpa [updateDir] using hrest

theorem lookupEntry_updateDir (w : Workspace) (d : String) (g : DirFiles → DirFiles)
    (n : String) :
    lookupEntry (updateDir w d g) n =
      if n = d then (lookupEntry w n).map (entryUpdate g) else lookupEntry w n := by
  induction w with
  | nil => simp [updateDir, lookupEntry]
  | cons e rest ih =>
    by_cases hed : e.1 = d
    · by_cases hen : e.1 = n
      · have hnd : n = d := by rw [← hen, hed]
        simp [updateDir, lookupEntry, hed, hen, hnd]
      · by_cases hnd : n = d
        · exact absurd (hed.trans hnd.symm) hen
        · have hdn : ¬ d = n := fun hh => hnd hh.symm
          simp only [updateDir, lookupEntry, List.map_cons, hed, hen, hnd, hdn,
            if_true, if_false] at ih ⊢
          exact ih
    · by_cases hen : e.1 = n
      · have hnd : ¬ n = d := fun hh => hed (hen.trans hh)
        simp [updateDir, lookupEntry, hed, hen, hnd]
      · simp only [updateDir, lookupEntry, hed, hen, if_false, List.map_cons] at ih ⊢
        exact ih

theorem lookupDir_updateDir (w : Workspace) (d : String) (g : DirFiles → DirFiles)
    (n : String) :
    lookupDir (updateDir w d g) n =
      if n = d then (lookupDir w n).map g else lookupDir w n := by
  unfold lookupDir
  rw [lookupEntry_updateDir]
  by_cases h : n = d
  · simp only [h, if_true]
    cases he : lookupEntry w d with
    | none => rfl
    | some e => cases e <;> rfl
  · simp [h]

theorem lookupDir_writeFile (w : Workspace) (d f : String) (x : FData) (n : String) :
    lookupDir (writeFile w d f x) n =
      if n = d then (lookupDir w n).map (fun fs => writeInDir fs f x) else lookupDir w n :=
  lookupDir_updateDir ..

theorem lookupDir_removeFile (w : Workspace) (d f : String) (n : String) :
    lookupDir (removeFile w d f) n =
      if n = d then (lookupDir w n).map (fun fs => removeInDir fs f) else lookupDir w n :=
  lookupDir_updateDir ..

theorem dirLookup_writeInDir (fs : DirFiles) (f : String) (x : FData) (f' : String) :
    dirLookup (writeInDir fs f x) f' = if f' = f then some x else dirLookup fs f' := by
  induction fs with
  | nil =>
    by_cases h : f' = f
    · simp [writeInDir, dirLookup, h]
    · have h2 : ¬ f = f' := fun hh => h hh.symm
      simp [writeInDir, dirLookup, h, h2]
  | cons p rest ih =>
    by_cases hp : p.1 = f
    · simp only [writeInDir, hp, if_true]
      by_cases h' : f' = f
      · have hpf : p.1 = f' := by rw [hp, h']
        simp [dirLookup, hpf, h']
      · have hpf : ¬ p.1 = f' := fun hh => h' (by rw [← hh, hp])
        have hff : ¬ f = f' := fun hh => h' hh.symm
        simp [dirLookup, hpf, h', hff]
    · simp only [writeInDir, hp, if_false]
      by_cases h2 : p.1 = f'
      · have h' : ¬ f' = f := fun hh => hp (by rw [h2, hh])
        simp [dirLookup, h2, h']
      · simp [dirLookup, h2, ih]

theorem dirLookup_removeInDir (fs : DirFiles) (f f' : String) :
    dirLookup (removeInDir fs f) f' = if f' = f then none else dirLookup fs f' := by
  induction fs with
  | nil => simp [removeInDir, dirLookup]
  | cons p rest ih =>
    by_cases hp : p.1 = f
    · rw [show removeInDir (p :: rest) f = removeInDir rest f by simp [removeInDir, hp]]
      rw [ih]
      by_cases h' : f' = f
      · simp [h']
      · have hpf : ¬ p.1 = f' := fun hh => h' (by rw [← hh, hp])
        simp [dirLookup, h', hpf]
    · rw [show removeInDir (p :: rest) f = p :: removeInDir rest f by
        simp [removeInDir, hp]]
      by_cases h2 : p.1 = f'
      · have h' : ¬ f' = f := fun hh => hp (by rw [h2, hh])
        simp [dirLookup, h2, h']
      · simp [dirLookup, h2, ih]

theorem names_writeInDir (fs : DirFiles) (f : String) (x : FData) :
    names (writeInDir fs f x) =
      if f ∈ names fs then names fs else names fs ++ [f] := by
  induction fs with
  | nil => simp [writeInDir]
  | cons p rest ih =>
    by_cases hp : p.1 = f
    · have hm : f ∈ names (p :: rest) := by simp [hp.symm]
      rw [if_pos hm]
      simp [writeInDir, hp]
    · have hne : ¬ f = p.1 := fun hh => hp hh.symm
      simp only [writeInDir, hp, if_false, names_cons, ih]
      by_cases hm : f ∈ names rest <;> simp [hm, hne]

theorem names_removeInDir (fs : DirFiles) (f : String) :
    names (removeInDir fs f) = (names fs).filter (fun n => n ≠ f) := by
  induction fs with
  | nil => simp [removeInDir]
  | cons p rest ih =>
    by_cases hp : p.1 = f <;> simp [removeInDir, hp, ih, List.filter_cons]

theorem dirLookup_isSome_iff_mem_names {fs : DirFiles} {f : String} :
    (dirLookup fs f).isSome = true ↔ f ∈ names fs := by
  induction fs with
  | nil => simp [dirLookup]
  | cons p rest ih =>
    by_cases hp : p.1 = f
    · simp [dirLookup, hp]
    · have h2 : ¬ f = p.1 := fun hh => hp hh.symm
      simp [dirLookup, hp, h2, ih]

theorem dirLookup_eq_none_iff {fs : DirFiles} {f : String} :
    dirLookup fs f = none ↔ f ∉ names fs := by
  rw [← dirLookup_isSome_iff_mem_names]
  cases dirLookup fs f <;> simp

/-! ## String suffix, stem and newline lemmas -/

theorem endsWithStr_iff {suf s : String} :
    endsWithStr suf s = true ↔ suf.data <:+ s.data := by
  simp [endsWithStr, List.isSuffixOf_iff_suffix]

theorem getLast?_eq_of_suffix {l₁ l₂ : List Char} (h : l₁ <:+ l₂) (hne : l₁ ≠ []) :
    l₂.getLast? = l₁.getLast? := by
  obtain ⟨t, rfl⟩ := h
  cases hl : l₁.getLast? with
  | none => exact absurd (List.getLast?_eq_none_iff.mp hl) hne
  | some a => rw [List.getLast?_append, hl]; rfl

theorem endsWithStr_false_of_last {suf s : String} (a b : Char)
    (ha : suf.data.getLast? = some a) (hb : s.data.getLast? = some b) (hne : a ≠ b) :
    endsWithStr suf s = false := by
  by_contra hc
  rw [Bool.not_eq_false, endsWithStr_iff] at hc
  have hl := getLast?_eq_of_suffix hc (by
    intro hnil
    rw [hnil] at ha
    simp at ha)
  rw [hb, ha] at hl
  exact hne (by injection hl with h; exact h.symm)

theorem endsWithStr_append_self (s t : String) : endsWithStr t (s ++ t) = true := by
  rw [endsWithStr_iff, String.data_append]
  exact ⟨s.data, rfl⟩

theorem endsMd_append (s : String) : endsWithStr ".md" (s ++ ".md") = true :=
  endsWithStr_append_self s ".md"

theorem endsMd_lock_false (f : String) : endsWithStr ".md" (f ++ ".lock") = false := by
  apply endsWithStr_false_of_last 'd' 'k' (by decide)
  · rw [String.data_append, List.getLast?_append]
    have h : (".lock" : String).data.getLast? = some 'k' := by decide
    rw [h]; rfl
  · decide

theorem endsLock_false_of_endsMd {f : String} (h : endsWithStr ".md" f = true) :
    endsWithStr ".lock" f = false := by
  rw [endsWithStr_iff] at h
  have hd := getLast?_eq_of_suffix h (by decide)
  have hf : f.data.getLast? = some 'd' := by rw [hd]; decide
  exact endsWithStr_false_of_last 'k' 'd' (by decide) hf (by decide)

theorem endsPdf_append_md_false (s : String) :
    endsWithStr ".pdf" (s ++ ".md") = false := by
  apply endsWithStr_false_of_last 'f' 'd' (by decide)
  · rw [String.data_append, List.getLast?_append]
    have h : (".md" : String).data.getLast? = some 'd' := by decide
    rw [h]; rfl
  · decide

theorem append_lock_ne (f : String) : ¬ (f ++ ".lock" = f) := by
  intro h
  have hlen := congrArg (fun s => s.data.length) h
  simp [String.data_append] at hlen

theorem mem_globMd {fs : DirFiles} {f : String} :
    f ∈ globMd fs ↔ f ∈ names fs ∧ endsWithStr ".md" f = true := by
  simp [globMd, List.mem_filter]

theorem mem_globPdf {fs : DirFiles} {f : String} :
    f ∈ globPdf fs ↔ f ∈ names fs ∧ endsWithStr ".pdf" f = true := by
  simp [globPdf, List.mem_filter]

theorem any_note_iff {fs : DirFiles} :
    (fs.any (fun f => f.1 = "note.md") = true) ↔ "note.md" ∈ names fs := by
  simp [names, List.any_eq_true, List.mem_map]

theorem filter_filter_ne {l : List String} {f : String} {p : String → Bool}
    (hf : p f = false) : (l.filter (fun n => n ≠ f)).filter p = l.filter p := by
  rw [List.filter_filter]
  apply List.filter_congr
  intro x _
  by_cases hxf : x = f
  · subst hxf
    simp [hf]
  · simp [hxf]

theorem globMd_eq_names_filter (fs : DirFiles) :
    globMd fs = (names fs).filter (fun n => endsWithStr ".md" n) := rfl

theorem globPdf_eq_names_filter (fs : DirFiles) :
    globPdf fs = (names fs).filter (fun n => endsWithStr ".pdf" n) := rfl

theorem univNLAux_cons_ne {c : Char} (h : ¬ c = '\r') (l : List Char) :
    univNLAux (c :: l) = c :: univNLAux l := by
  rw [univNLAux.eq_def]
  split
  · simp_all
  · simp_all
  · simp_all
  · simp_all

theorem univNLAux_cr {c : Char} (hc : ¬ c = '\n') (rest : List Char) :
    univNLAux ('\r' :: c :: rest) = '\n' :: univNLAux (c :: rest) := by
  rw [univNLAux.eq_def]
  split
  · simp_all
  · simp_all
  · simp_all
  · rename_i hx heq
    injection heq with h1 h2
    exact absurd h1.symm hx

theorem univNLAux_cr_eq {rest : List Char}
    (h : ∀ rest', rest = '\n' :: rest' → False) :
    univNLAux ('\r' :: rest) = '\n' :: univNLAux rest := by
  cases rest with
  | nil => rfl
  | cons c' rest' =>
    by_cases hc : c' = '\n'
    · exact absurd (by rw [hc]) (fun hh => h rest' hh)
    · exact univNLAux_cr hc rest'

theorem univNLAux_no_cr (l : List Char) : '\r' ∉ univNLAux l := by
  induction l using univNLAux.induct with
  | case1 => simp [univNLAux]
  | case2 rest ih =>
    rw [show univNLAux ('\r' :: '\n' :: rest) = '\n' :: univNLAux rest from rfl]
    simp only [List.mem_cons]
    rintro (hh | hh)
    · exact absurd hh (by decide)
    · exact ih hh
  | case3 rest h ih =>
    rw [univNLAux_cr_eq h]
    simp only [List.mem_cons]
    rintro (hh | hh)
    · exact absurd hh (by decide)
    · exact ih hh
  | case4 c rest h1 h2 ih =>
    rw [univNLAux_cons_ne (fun hh => h2 hh)]
    simp only [List.mem_cons]
    rintro (hh | hh)
    · exact h2 hh.symm
    · exact ih hh

theorem univNLAux_of_no_cr {l : List Char} (h : '\r' ∉ l) : univNLAux l = l := by
  induction l with
  | nil => rfl
  | cons c rest ih =>
    have hc : ¬ c = '\r' := fun hh => h (by simp [hh])
    rw [univNLAux_cons_ne hc, ih (fun hm => h (by simp [hm]))]

theorem univNLAux_append_of_no_cr {l : List Char} (t : List Char) (h : '\r' ∉ l) :
    univNLAux (l ++ t) = l ++ univNLAux t := by
  induction l with
  | nil => rfl
  | cons c rest ih =>
    have hc : ¬ c = '\r' := fun hh => h (by simp [hh])
    rw [List.cons_append, univNLAux_cons_ne hc, ih (fun hm => h (by simp [hm]))]
    rfl

theorem univNL_of_no_cr {s : String} (h : '\r' ∉ s.data) : univNL s = s := by
  unfold univNL
  rw [univNLAux_of_no_cr h]

theorem univNL_no_cr (s : String) : '\r' ∉ (univNL s).data :=
  univNLAux_no_cr s.data

theorem univNL_append_of_no_cr {s : String} (t : String) (h : '\r' ∉ s.data) :
    univNL (s ++ t) = s ++ univNL t := by
  unfold univNL
  apply String.ext
  simp only [String.data_append]
  exact univNLAux_append_of_no_cr t.data h

theorem nodot_sanitize (s : String) : '.' ∉ (sanitize s).data := by
  intro h
  unfold sanitize at h
  simp only [List.mem_filter] at h
  have := h.2
  simp at this

theorem lastDotIdxAux_append_dot_md {l : List Char} (h : '.' ∉ l) (i : Nat) :
    lastDotIdxAux (l ++ ('.' :: 'm' :: 'd' :: [])) i = some (i + l.length) := by
  induction l generalizing i with
  | nil => rfl
  | cons c rest ih =>
    have hc : ¬ c = '.' := fun hh => h (by simp [hh])
    rw [List.cons_append, lastDotIdxAux]
    rw [ih (fun hm => h (by simp [hm]))]
    simp only [List.length_cons]
    congr 1
    omega

theorem pstem_append_md {s : String} (hdot : '.' ∉ s.data) (hne : s ≠ "") :
    pstem (s ++ ".md") = s := by
  have hd : (s ++ ".md").data = s.data ++ ('.' :: 'm' :: 'd' :: []) := by
    rw [String.data_append]
  have hlen : 0 < s.data.length := by
    cases hsd : s.data with
    | nil => exact absurd (String.ext hsd) hne
    | cons a t => simp
  unfold pstem
  rw [hd, lastDotIdxAux_append_dot_md hdot 0]
  simp only [Nat.zero_add]
  rw [if_pos (by
    constructor
    · exact hlen
    · simp only [List.length_append, List.length_cons]
      omega)]
  rw [List.take_left]

theorem pstem_dot_md : pstem ".md" = ".md" := by decide

/-! ## Note path resolution lemmas -/

theorem mem_of_head?_some {α : Type} {l : List α} {a : α} (h : l.head? = some a) :
    a ∈ l := by
  cases l with
  | nil => simp at h
  | cons b t =>
    simp at h
    simp [h]

theorem ne_append_lock (f : String) : ¬ f = f ++ ".lock" :=
  fun h => append_lock_ne f h.symm

theorem find_note_some_eq (fs : DirFiles) (d : String) :
    find_note (some fs) d =
      if fs.any (fun f => f.1 = "note.md") then some "note.md"
      else
        match (globMd fs).find? (fun f => pstem f = d) with
        | some f => some f
        | none => (globMd fs).head? := rfl

theorem find_note_some {fs : DirFiles} {d f : String}
    (h : find_note (some fs) d = some f) :
    f ∈ names fs ∧ endsWithStr ".md" f = true := by
  rw [find_note_some_eq] at h
  by_cases hany : fs.any (fun f => f.1 = "note.md") = true
  · rw [if_pos hany] at h
    injection h with h
    subst h
    exact ⟨any_note_iff.mp hany, by decide⟩
  · rw [if_neg hany] at h
    cases hf : (globMd fs).find? (fun f => pstem f = d) with
    | some g =>
      rw [hf] at h
      injection h with h
      subst h
      exact mem_globMd.mp (List.mem_of_find?_eq_some hf)
    | none =>
      rw [hf] at h
      exact mem_globMd.mp (mem_of_head?_some h)

theorem find_note_of_no_md {fs : DirFiles} (d : String) (h : globMd fs = []) :
    find_note (some fs) d = none := by
  rw [find_note_some_eq]
  have hany : ¬ fs.any (fun f => f.1 = "note.md") = true := by
    intro ha
    have hm : "note.md" ∈ globMd fs :=
      mem_globMd.mpr ⟨any_note_iff.mp ha, by decide⟩
    rw [h] at hm
    simp at hm
  rw [if_neg hany]
  cases hf : (globMd fs).find? (fun f => pstem f = d) with
  | some g =>
    have := List.mem_of_find?_eq_some hf
    rw [h] at this
    simp at this
  | none =>
    rw [h]
    rfl

theorem find_note_of_md_ne_nil {fs : DirFiles} (d : String) (h : ¬ globMd fs = []) :
    ∃ f, find_note (some fs) d = some f := by
  rw [find_note_some_eq]
  by_cases hany : fs.any (fun f => f.1 = "note.md") = true
  · exact ⟨"note.md", by rw [if_pos hany]⟩
  · rw [if_neg hany]
    cases hf : (globMd fs).find? (fun f => pstem f = d) with
    | some g => exact ⟨g, rfl⟩
    | none =>
      cases hg : globMd fs with
      | nil => exact absurd hg h
      | cons a t => exact ⟨a, rfl⟩

theorem endsMd_get_note_path (w : Workspace) (d : String) :
    endsWithStr ".md" (get_note_path w d) = true := by
  unfold get_note_path
  cases hd : lookupDir w d with
  | none => exact endsMd_append d
  | some fs =>
    cases hf : find_note (some fs) d with
    | none => exact endsMd_append d
    | some f => exact (find_note_some hf).2

theorem find_note_congr {fs fs' : DirFiles} (h : globMd fs = globMd fs') (d : String) :
    find_note (some fs) d = find_note (some fs') d := by
  have hany : (fs.any (fun f => f.1 = "note.md")) = (fs'.any (fun f => f.1 = "note.md")) := by
    by_cases h1 : fs.any (fun f => f.1 = "note.md") = true
    · have hm : "note.md" ∈ globMd fs' := by
        rw [← h]
        exact mem_globMd.mpr ⟨any_note_iff.mp h1, by decide⟩
      rw [h1, eq_comm]
      exact any_note_iff.mpr (mem_globMd.mp hm).1
    · by_cases h2 : fs'.any (fun f => f.1 = "note.md") = true
      · have hm : "note.md" ∈ globMd fs := by
          rw [h]
          exact mem_globMd.mpr ⟨any_note_iff.mp h2, by decide⟩
        exact absurd (any_note_iff.mpr (mem_globMd.mp hm).1) h1
      · rw [Bool.eq_false_iff.mpr h1, Bool.eq_false_iff.mpr h2]
  rw [find_note_some_eq, find_note_some_eq, hany, h]

theorem find_note_single_md {fs : DirFiles} {s : String}
    (h : globMd fs = [s ++ ".md"]) (hdot : '.' ∉ s.data) :
    find_note (some fs) s = some (s ++ ".md") := by
  rw [find_note_some_eq]
  by_cases hany : fs.any (fun f => f.1 = "note.md") = true
  · have hm : "note.md" ∈ globMd fs :=
      mem_globMd.mpr ⟨any_note_iff.mp hany, by decide⟩
    rw [h] at hm
    simp at hm
    rw [if_pos hany, hm]
  · rw [if_neg hany, h]
    by_cases hne : s = ""
    · subst hne
      have hstem : ¬ pstem ("" ++ ".md") = "" := by decide
      simp only [List.find?]
      rw [decide_eq_false hstem]
      rfl
    · have hstem : pstem (s ++ ".md") = s := pstem_append_md hdot hne
      simp only [List.find?]
      rw [decide_eq_true hstem]

theorem get_note_path_of_no_md {w : Workspace} {d : String} {fs : DirFiles}
    (h1 : lookupDir w d = some fs) (h2 : globMd fs = []) :
    get_note_path w d = d ++ ".md" := by
  unfold get_note_path
  rw [h1, find_note_of_no_md d h2]
  rfl

theorem get_note_path_of_no_dir {w : Workspace} {d : String}
    (h1 : lookupDir w d = none) : get_note_path w d = d ++ ".md" := by
  unfold get_note_path
  rw [h1]
  rfl

theorem fileExists_false_of_no_dir {w : Workspace} {d : String} (f : String)
    (h1 : lookupDir w d = none) : fileExists w d f = false := by
  unfold fileExists readFile
  rw [h1]
  rfl

theorem note_fileExists_false_of_no_md {w : Workspace} {d : String} {fs : DirFiles}
    (h1 : lookupDir w d = some fs) (h2 : globMd fs = []) :
    fileExists w d (get_note_path w d) = false := by
  rw [get_note_path_of_no_md h1 h2]
  unfold fileExists readFile
  rw [h1]
  simp only [Option.some_bind]
  cases hd : dirLookup fs (d ++ ".md") with
  | none => rfl
  | some x =>
    have hm : d ++ ".md" ∈ names fs := by
      rw [← dirLookup_isSome_iff_mem_names, hd]
      rfl
    have : d ++ ".md" ∈ globMd fs := mem_globMd.mpr ⟨hm, endsMd_append d⟩
    rw [h2] at this
    simp at this

theorem note_fileExists_true_of_md {w : Workspace} {d : String} {fs : DirFiles}
    (h1 : lookupDir w d = some fs) (h2 : ¬ globMd fs = []) :
    fileExists w d (get_note_path w d) = true := by
  obtain ⟨f, hf⟩ := find_note_of_md_ne_nil d h2
  unfold get_note_path
  rw [h1, hf]
  unfold fileExists readFile
  rw [h1]
  simp only [Option.bind_some, Option.getD_some]
  rw [Option.isSome_iff_exists]
  have hm := (find_note_some hf).1
  rw [← dirLookup_isSome_iff_mem_names, Option.isSome_iff_exists] at hm
  exact hm

theorem readFile_writeFile_other {w : Workspace} {d f' f : String} {x : FData}
    (hne : ¬ f = f') :
    readFile (writeFile w d f' x) d f = readFile w d f := by
  unfold readFile
  rw [lookupDir_writeFile]
  simp only [if_pos rfl]
  cases lookupDir w d with
  | none => rfl
  | some fs => simp [dirLookup_writeInDir, hne]

/-! ## Normal form of a locked read-modify-write -/

theorem lookupDir_lockedWrite (w : Workspace) (d f : String) (m : FData) (n : String) :
    lookupDir (removeFile (writeFile (writeFile w d (f ++ ".lock") (FData.text ""))
        d f m) d (f ++ ".lock")) n =
      if n = d then
        (lookupDir w n).map (fun fs =>
          removeInDir (writeInDir (writeInDir fs (f ++ ".lock") (FData.text "")) f m)
            (f ++ ".lock"))
      else lookupDir w n := by
  rw [lookupDir_removeFile, lookupDir_writeFile, lookupDir_writeFile]
  by_cases h : n = d
  · simp only [h, if_true]
    cases lookupDir w d <;> rfl
  · simp [h]

theorem dirLookup_lockedWrite (fs : DirFiles) (f : String) (m : FData) (f' : String) :
    dirLookup (removeInDir (writeInDir (writeInDir fs (f ++ ".lock") (FData.text ""))
        f m) (f ++ ".lock")) f' =
      if f' = f ++ ".lock" then none
      else if f' = f then some m
      else dirLookup fs f' := by
  rw [dirLookup_removeInDir]
  by_cases h1 : f' = f ++ ".lock"
  · simp [h1]
  · rw [if_neg h1, if_neg h1, dirLookup_writeInDir]
    by_cases h2 : f' = f
    · simp [h2]
    · rw [if_neg h2, if_neg h2, dirLookup_writeInDir, if_neg h1]

theorem mem_names_lockedWrite {fs : DirFiles} {f : String} {m : FData} {n : String}
    (h : n ∈ names (removeInDir (writeInDir (writeInDir fs (f ++ ".lock")
        (FData.text "")) f m) (f ++ ".lock"))) :
    n = f ∨ n ∈ names fs := by
  rw [names_removeInDir] at h
  have h1 := List.mem_filter.mp h
  have h2 := h1.1
  rw [names_writeInDir] at h2
  by_cases hc : f ∈ names (writeInDir fs (f ++ ".lock") (FData.text ""))
  · rw [if_pos hc] at h2
    rw [names_writeInDir] at h2 hc
    by_cases hl : f ++ ".lock" ∈ names fs
    · rw [if_pos hl] at h2
      exact Or.inr h2
    · rw [if_neg hl] at h2
      rcases List.mem_append.mp h2 with hm | hm
      · exact Or.inr hm
      · simp at hm
        subst hm
        have := h1.2
        simp at this
  · rw [if_neg hc] at h2
    rcases List.mem_append.mp h2 with hm | hm
    · rw [names_writeInDir] at hm
      by_cases hl : f ++ ".lock" ∈ names fs
      · rw [if_pos hl] at hm
        exact Or.inr hm
      · rw [if_neg hl] at hm
        rcases List.mem_append.mp hm with hm' | hm'
        · exact Or.inr hm'
        · simp at hm'
          subst hm'
          have := h1.2
          simp at this
    · simp at hm
      exact Or.inl hm

theorem globMd_lockedWrite (fs : DirFiles) {f : String} (m : FData)
    (hf : endsWithStr ".md" f = true) :
    globMd (removeInDir (writeInDir (writeInDir fs (f ++ ".lock") (FData.text ""))
        f m) (f ++ ".lock")) =
      if f ∈ names fs then globMd fs else globMd fs ++ [f] := by
  have hfl : ¬ f = f ++ ".lock" := ne_append_lock f
  rw [globMd_eq_names_filter, names_removeInDir,
    filter_filter_ne (endsMd_lock_false f), names_writeInDir, names_writeInDir]
  by_cases hl : f ++ ".lock" ∈ names fs
  · rw [if_pos hl]
    by_cases hm : f ∈ names fs
    · rw [if_pos hm, if_pos hm]
      rfl
    · rw [if_neg hm, if_neg hm, List.filter_append]
      rw [show List.filter (fun n => endsWithStr ".md" n) [f] = [f] by simp [hf]]
      rfl
  · rw [if_neg hl]
    by_cases hm : f ∈ names fs
    · have hm' : f ∈ names fs ++ [f ++ ".lock"] := List.mem_append.mpr (Or.inl hm)
      rw [if_pos hm', if_pos hm, List.filter_append]
      rw [show List.filter (fun n => endsWithStr ".md" n) [f ++ ".lock"] = [] by
        simp [endsMd_lock_false]]
      simp [globMd_eq_names_filter]
    · have hm' : ¬ f ∈ names fs ++ [f ++ ".lock"] := by
        intro hc
        rcases List.mem_append.mp hc with h' | h'
        · exact hm h'
        · simp at h'
          exact hfl h'
      rw [if_neg hm', if_neg hm, List.filter_append, List.filter_append]
      rw [show List.filter (fun n => endsWithStr ".md" n) [f ++ ".lock"] = [] by
        simp [endsMd_lock_false]]
      rw [show List.filter (fun n => endsWithStr ".md" n) [f] = [f] by simp [hf]]
      simp [globMd_eq_names_filter]

/-! ## mkdir lemmas -/

theorem mkdirP_of_dir {w : Workspace} {n : String} {fs : DirFiles}
    (h : lookupEntry w n = some (Entry.dir fs)) : mkdirP w n = some w := by
  unfold mkdirP
  rw [h]

theorem mkdirP_of_absent {w : Workspace} {n : String}
    (h : lookupEntry w n = none) : mkdirP w n = some (w ++ [(n, Entry.dir [])]) := by
  unfold mkdirP
  rw [h]

theorem lookupDir_after_mkdir_absent {w : Workspace} {n : String}
    (h : lookupEntry w n = none) :
    lookupDir (w ++ [(n, Entry.dir [])]) n = some [] := by
  unfold lookupDir
  rw [lookupEntry_append_of_none _ h]
  simp [lookupEntry]

theorem lookupDir_append_other {w : Workspace} {n m : String} (e : Entry)
    (hne : ¬ m = n) : lookupDir (w ++ [(n, e)]) m = lookupDir w m := by
  unfold lookupDir
  cases hl : lookupEntry w m with
  | none =>
    rw [lookupEntry_append_of_none _ hl]
    have h2 : ¬ n = m := fun hh => hne hh.symm
    simp [lookupEntry, h2]
  | some x =>
    have : lookupEntry (w ++ [(n, e)]) m = some x := by
      induction w with
      | nil => simp [lookupEntry] at hl
      | cons a rest ih =>
        by_cases ha : a.1 = m
        · simp only [lookupEntry, ha, if_true] at hl
          simp only [List.cons_append, lookupEntry, ha, if_true]
          exact hl
        · simp only [lookupEntry, ha, if_false] at hl
          simp only [List.cons_append, lookupEntry, ha, if_false]
          exact ih hl
    rw [this]

/-! ## Operation characterizations -/

theorem readText_writeFile_other {w : Workspace} {d f' f : String} {x : FData}
    (hne : ¬ f = f') :
    readText (writeFile w d f' x) d f = readText w d f := by
  unfold readText
  rw [readFile_writeFile_other hne]

theorem lookupDir_of_readFile_some {w : Workspace} {d f : String} {x : FData}
    (h : readFile w d f = some x) :
    ∃ fs, lookupDir w d = some fs ∧ dirLookup fs f = some x := by
  unfold readFile at h
  cases hld : lookupDir w d with
  | none => rw [hld] at h; simp at h
  | some fs =>
    rw [hld] at h
    exact ⟨fs, rfl, by simpa using h⟩

theorem lookupEntry_of_lookupDir_some {w : Workspace} {d : String} {fs : DirFiles}
    (h : lookupDir w d = some fs) : lookupEntry w d = some (Entry.dir fs) := by
  unfold lookupDir at h
  cases he : lookupEntry w d with
  | none => rw [he] at h; simp at h
  | some e =>
    cases e with
    | file x => rw [he] at h; simp at h
    | dir fs' =>
      rw [he] at h
      simp only [Option.some.injEq] at h
      rw [h]

theorem getNote_eq_of_text {w : Workspace} {pid s : String}
    (h : readFile w (sanitize pid) (get_note_path w (sanitize pid)) = some (FData.text s)) :
    getNote w pid =
      (removeFile (writeFile w (sanitize pid)
          (get_note_path w (sanitize pid) ++ ".lock") (FData.text ""))
        (sanitize pid) (get_note_path w (sanitize pid) ++ ".lock"),
       Except.ok ⟨univNL s, render_markdown (univNL s)⟩) := by
  have hex : fileExists w (sanitize pid) (get_note_path w (sanitize pid)) = true := by
    unfold fileExists
    rw [h]
    rfl
  have hrt : readText (writeFile w (sanitize pid)
      (get_note_path w (sanitize pid) ++ ".lock") (FData.text ""))
      (sanitize pid) (get_note_path w (sanitize pid)) = some (univNL s) := by
    rw [readText_writeFile_other (ne_append_lock _)]
    unfold readText
    rw [h]
  unfold getNote withNoteLock
  simp only [hex, if_true, hrt]

theorem getNote_ok_inv {w : Workspace} {pid : String} {v : NoteView}
    (h : (getNote w pid).2 = Except.ok v) :
    ∃ s, readFile w (sanitize pid) (get_note_path w (sanitize pid)) =
        some (FData.text s) ∧
      v = ⟨univNL s, render_markdown (univNL s)⟩ := by
  unfold getNote withNoteLock at h
  by_cases hex : fileExists w (sanitize pid) (get_note_path w (sanitize pid)) = true
  · simp only [hex, if_true] at h
    rw [readText_writeFile_other (ne_append_lock _)] at h
    unfold readText at h
    cases hr : readFile w (sanitize pid) (get_note_path w (sanitize pid)) with
    | none => rw [hr] at h; simp at h
    | some x =>
      cases x with
      | text s =>
        rw [hr] at h
        simp only [Except.ok.injEq] at h
        exact ⟨s, rfl, h.symm⟩
      | bin bs => rw [hr] at h; simp at h
  · simp only [hex, if_false] at h
    simp at h

theorem getNote_notFound {w : Workspace} {pid : String}
    (hex : noteExists w pid = false) :
    getNote w pid = (w, Except.error ApiErr.notFound) := by
  unfold noteExists at hex
  unfold getNote
  simp [hex]

theorem updateNote_notFound {w : Workspace} {pid c : String}
    (hex : noteExists w pid = false) :
    updateNote w pid c = (w, Except.error ApiErr.notFound) := by
  unfold noteExists at hex
  unfold updateNote
  simp [hex]

theorem patchNote_notFound {w : Workspace} {pid a : String}
    (hex : noteExists w pid = false) :
    patchNote w pid a = (w, Except.error ApiErr.notFound) := by
  unfold noteExists at hex
  unfold patchNote
  simp [hex]

theorem deleteNote_notFound {w : Workspace} {pid : String}
    (hex : noteExists w pid = false) :
    deleteNote w pid = (w, Except.error ApiErr.notFound) := by
  unfold noteExists at hex
  unfold deleteNote
  simp [hex]

theorem deleteNote_eq_of_exists {w : Workspace} {pid : String}
    (hex : noteExists w pid = true) :
    deleteNote w pid =
      (removeFile w (sanitize pid) (get_note_path w (sanitize pid)), Except.ok ()) := by
  unfold noteExists at hex
  unfold deleteNote
  simp only [hex, if_true]

theorem updateNote_eq_of_exists {w : Workspace} {pid c : String}
    (hex : noteExists w pid = true) :
    updateNote w pid c =
      (removeFile (writeFile (writeFile w (sanitize pid)
            (get_note_path w (sanitize pid) ++ ".lock") (FData.text ""))
          (sanitize pid) (get_note_path w (sanitize pid)) (FData.text c))
        (sanitize pid) (get_note_path w (sanitize pid) ++ ".lock"),
       Except.ok ⟨c, render_markdown c⟩) := by
  unfold noteExists at hex
  unfold updateNote withNoteLock
  simp only [hex, if_true]

theorem patchNote_eq_of_text {w : Workspace} {pid a s : String}
    (h : readFile w (sanitize pid) (get_note_path w (sanitize pid)) = some (FData.text s)) :
    patchNote w pid a =
      (removeFile (writeFile (writeFile w (sanitize pid)
            (get_note_path w (sanitize pid) ++ ".lock") (FData.text ""))
          (sanitize pid) (get_note_path w (sanitize pid))
          (FData.text (patchMerge (univNL s) a)))
        (sanitize pid) (get_note_path w (sanitize pid) ++ ".lock"),
       Except.ok ⟨patchMerge (univNL s) a,
         render_markdown (patchMerge (univNL s) a)⟩) := by
  have hex : fileExists w (sanitize pid) (get_note_path w (sanitize pid)) = true := by
    unfold fileExists
    rw [h]
    rfl
  have hrt : readText (writeFile w (sanitize pid)
      (get_note_path w (sanitize pid) ++ ".lock") (FData.text ""))
      (sanitize pid) (get_note_path w (sanitize pid)) = some (univNL s) := by
    rw [readText_writeFile_other (ne_append_lock _)]
    unfold readText
    rw [h]
  unfold patchNote withNoteLock
  simp only [hex, if_true, hrt]

theorem updateDir_append (w₁ w₂ : Workspace) (d : String) (g : DirFiles → DirFiles) :
    updateDir (w₁ ++ w₂) d g = updateDir w₁ d g ++ updateDir w₂ d g := by
  simp [updateDir]

theorem createNote_eq_absent {w : Workspace} {pid c : String}
    (h : lookupEntry w (sanitize pid) = none) :
    createNote w pid c =
      (w ++ [(sanitize pid,
          Entry.dir [(sanitize pid ++ ".md", FData.text c)])],
       Except.ok ⟨c, render_markdown c⟩) := by
  have hld : lookupDir (w ++ [(sanitize pid, Entry.dir [])]) (sanitize pid) = some [] :=
    lookupDir_after_mkdir_absent h
  have hfn : get_note_path (w ++ [(sanitize pid, Entry.dir [])]) (sanitize pid) =
      sanitize pid ++ ".md" := get_note_path_of_no_md hld rfl
  have hex : fileExists (w ++ [(sanitize pid, Entry.dir [])]) (sanitize pid)
      (get_note_path (w ++ [(sanitize pid, Entry.dir [])]) (sanitize pid)) = false :=
    note_fileExists_false_of_no_md hld rfl
  have e1 : ∀ g, updateDir w (sanitize pid) g = w := fun g => updateDir_of_none g h
  have e2 : ∀ fs g, updateDir [(sanitize pid, Entry.dir fs)] (sanitize pid) g =
      [(sanitize pid, Entry.dir (g fs))] := by
    intro fs g
    simp [updateDir, entryUpdate]
  have hX : removeInDir (writeInDir (writeInDir []
        (sanitize pid ++ ".md" ++ ".lock") (FData.text ""))
        (sanitize pid ++ ".md") (FData.text c))
        (sanitize pid ++ ".md" ++ ".lock") =
      [(sanitize pid ++ ".md", FData.text c)] := by
    rw [show writeInDir [] (sanitize pid ++ ".md" ++ ".lock") (FData.text "") =
        [(sanitize pid ++ ".md" ++ ".lock", FData.text "")] from rfl]
    rw [show writeInDir [(sanitize pid ++ ".md" ++ ".lock", FData.text "")]
        (sanitize pid ++ ".md") (FData.text c) =
        [(sanitize pid ++ ".md" ++ ".lock", FData.text ""),
         (sanitize pid ++ ".md", FData.text c)] from by
      unfold writeInDir
      rw [if_neg (append_lock_ne (sanitize pid ++ ".md"))]
      rfl]
    unfold removeInDir
    rw [if_pos rfl]
    unfold removeInDir
    rw [if_neg (ne_append_lock (sanitize pid ++ ".md"))]
    rfl
  simp only [createNote]
  rw [mkdirP_of_absent h]
  simp only [hex, if_false, Bool.false_eq_true]
  rw [hfn]
  simp only [withNoteLock, writeFile, removeFile, updateDir_append, e1, e2]
  rw [hX]

theorem createNote_eq_no_md {w : Workspace} {pid c : String} {fs0 : DirFiles}
    (hl : lookupDir w (sanitize pid) = some fs0) (hmd : globMd fs0 = []) :
    createNote w pid c =
      (removeFile (writeFile (writeFile w (sanitize pid)
            (sanitize pid ++ ".md" ++ ".lock") (FData.text ""))
          (sanitize pid) (sanitize pid ++ ".md") (FData.text c))
        (sanitize pid) (sanitize pid ++ ".md" ++ ".lock"),
       Except.ok ⟨c, render_markdown c⟩) := by
  have hfn : get_note_path w (sanitize pid) = sanitize pid ++ ".md" :=
    get_note_path_of_no_md hl hmd
  have hex : fileExists w (sanitize pid)
      (get_note_path w (sanitize pid)) = false :=
    note_fileExists_false_of_no_md hl hmd
  simp only [createNote]
  rw [mkdirP_of_dir (lookupEntry_of_lookupDir_some hl)]
  simp only [hex, if_false, Bool.false_eq_true]
  rw [hfn]
  rfl

theorem createNote_conflict {w : Workspace} {pid c : String}
    (hex : noteExists w pid = true) :
    createNote w pid c = (w, Except.error ApiErr.conflict) := by
  unfold noteExists fileExists at hex
  rw [Option.isSome_iff_exists] at hex
  obtain ⟨x, hx⟩ := hex
  obtain ⟨fs, hfs, _⟩ := lookupDir_of_readFile_some hx
  simp only [createNote]
  rw [mkdirP_of_dir (lookupEntry_of_lookupDir_some hfs)]
  have hex' : fileExists w (sanitize pid) (get_note_path w (sanitize pid)) = true := by
    unfold fileExists
    rw [hx]
    rfl
  simp only [hex', if_true]

theorem createNote_never_notFound (w : Workspace) (pid c : String) :
    (createNote w pid c).2 ≠ Except.error ApiErr.notFound := by
  simp only [createNote]
  cases hm : mkdirP w (sanitize pid) with
  | none => simp
  | some w0 =>
    by_cases hex : fileExists w0 (sanitize pid) (get_note_path w0 (sanitize pid)) = true
    · simp [hex]
    · simp only [Bool.not_eq_true] at hex
      unfold withNoteLock
      simp [hex]

/-! ## Python string order and `list_papers` lemmas -/

theorem charListLe_total : ∀ l₁ l₂ : List Char,
    charListLe l₁ l₂ = true ∨ charListLe l₂ l₁ = true := by
  intro l₁
  induction l₁ with
  | nil => intro l₂; exact Or.inl rfl
  | cons a as ih =>
    intro l₂
    cases l₂ with
    | nil => exact Or.inr rfl
    | cons b bs =>
      by_cases hab : a = b
      · subst hab
        rcases ih bs with h | h
        · exact Or.inl (by simp [charListLe, h])
        · exact Or.inr (by simp [charListLe, h])
      · rcases lt_or_gt_of_ne hab with hlt | hgt
        · exact Or.inl (by simp [charListLe, hab, hlt])
        · have hba : ¬ b = a := fun hh => hab hh.symm
          exact Or.inr (by simp [charListLe, hba, hgt])

theorem charListLe_trans : ∀ l₁ l₂ l₃ : List Char,
    charListLe l₁ l₂ = true → charListLe l₂ l₃ = true → charListLe l₁ l₃ = true := by
  intro l₁
  induction l₁ with
  | nil => intro l₂ l₃ _ _; rfl
  | cons a as ih =>
    intro l₂ l₃ h1 h2
    cases l₂ with
    | nil => simp [charListLe] at h1
    | cons b bs =>
      cases l₃ with
      | nil => simp [charListLe] at h2
      | cons c cs =>
        by_cases hab : a = b
        · subst hab
          by_cases hbc : a = c
          · subst hbc
            simp only [charListLe, if_pos rfl] at h1 h2 ⊢
            exact ih bs cs h1 h2
          · simp only [charListLe] at h2 ⊢
            rw [if_neg hbc] at h2 ⊢
            exact h2
        · simp only [charListLe] at h1
          rw [if_neg hab, decide_eq_true_eq] at h1
          by_cases hbc : b = c
          · have hac : ¬ a = c := fun hh => hab (hh.trans hbc.symm)
            simp only [charListLe]
            rw [if_neg hac, decide_eq_true_eq, ← hbc]
            exact h1
          · simp only [charListLe] at h2
            rw [if_neg hbc, decide_eq_true_eq] at h2
            have hlt : a < c := lt_trans h1 h2
            have hac : ¬ a = c := ne_of_lt hlt
            simp only [charListLe]
            rw [if_neg hac, decide_eq_true_eq]
            exact hlt

theorem strLe_total (a b : String) : strLe a b = true ∨ strLe b a = true :=
  charListLe_total a.data b.data

theorem strLe_trans {a b c : String} (h1 : strLe a b = true) (h2 : strLe b c = true) :
    strLe a c = true :=
  charListLe_trans a.data b.data c.data h1 h2

theorem sorted_pySorted (l : List String) :
    List.Sorted (fun a b => strLe a b = true) (pySorted l) := by
  haveI ht : IsTotal String (fun a b => strLe a b = true) := ⟨strLe_total⟩
  haveI htr : IsTrans String (fun a b => strLe a b = true) :=
    ⟨fun _ _ _ h1 h2 => strLe_trans h1 h2⟩
  exact List.sorted_insertionSort _ l

theorem mem_pySorted {l : List String} {n : String} :
    n ∈ pySorted l ↔ n ∈ l :=
  (List.perm_insertionSort _ l).mem_iff

theorem mem_list_papers_iff {w : Workspace} {n : String} :
    n ∈ list_papers w ↔ ∃ e ∈ w, e.1 = n ∧ hasPdf e.2 = true := by
  unfold list_papers
  rw [mem_pySorted]
  simp only [List.mem_map, List.mem_filter]
  constructor
  · rintro ⟨e, ⟨he, hp⟩, rfl⟩
    exact ⟨e, he, rfl, hp⟩
  · rintro ⟨e, he, rfl, hp⟩
    exact ⟨e, ⟨he, hp⟩, rfl⟩

theorem head?_filter_some {p : String → Bool} {l : List String} {f : String}
    (h : (l.filter p).head? = some f) :
    ∃ l₁ l₂, l = l₁ ++ f :: l₂ ∧ (∀ x ∈ l₁, p x = false) ∧ p f = true := by
  induction l with
  | nil => simp at h
  | cons a rest ih =>
    by_cases hpa : p a = true
    · rw [List.filter_cons, if_pos hpa] at h
      simp only [List.head?_cons, Option.some.injEq] at h
      subst h
      exact ⟨[], rest, rfl, by simp, hpa⟩
    · rw [List.filter_cons, if_neg hpa] at h
      obtain ⟨l₁, l₂, heq, hall, hpf⟩ := ih h
      refine ⟨a :: l₁, l₂, by rw [heq]; rfl, ?_, hpf⟩
      intro x hx
      rcases List.mem_cons.mp hx with hx | hx
      · rw [hx]
        exact Bool.eq_false_iff.mpr hpa
      · exact hall x hx

/-! ## Lock-freedom preservation -/

theorem updateDir_updateDir (w : Workspace) (d : String) (g₁ g₂ : DirFiles → DirFiles) :
    updateDir (updateDir w d g₁) d g₂ = updateDir w d (fun fs => g₂ (g₁ fs)) := by
  unfold updateDir
  rw [List.map_map]
  apply List.map_congr_left
  intro e _
  by_cases hd : e.1 = d
  · simp only [Function.comp, hd, if_pos rfl]
    cases he : e.2 <;> simp [entryUpdate]
  · simp [Function.comp, hd]

theorem noLocks_updateDir {w : Workspace} {d : String} {g : DirFiles → DirFiles}
    (h : noLocks w = true)
    (hg : ∀ fs, (∀ n ∈ names fs, endsWithStr ".lock" n = false) →
      ∀ n ∈ names (g fs), endsWithStr ".lock" n = false) :
    noLocks (updateDir w d g) = true := by
  unfold noLocks at h ⊢
  rw [List.all_eq_true] at h ⊢
  intro e he
  unfold updateDir at he
  rw [List.mem_map] at he
  obtain ⟨e0, he0, rfl⟩ := he
  by_cases hd : e0.1 = d
  · rw [if_pos hd]
    cases he2 : e0.2 with
    | file x => simp [entryUpdate]
    | dir fs =>
      have hfs := h e0 he0
      rw [he2] at hfs
      simp only [entryUpdate]
      rw [List.all_eq_true] at hfs ⊢
      intro n hn
      have hmem : n ∈ names (g fs) := by
        simpa using hn
      have hprev : ∀ m ∈ names fs, endsWithStr ".lock" m = false := by
        intro m hm
        have := hfs m (by simpa using hm)
        simpa using this
      have := hg fs hprev n hmem
      simpa using this
  · rw [if_neg hd]
    exact h e0 he0

theorem noLocks_append {w₁ w₂ : Workspace} (h1 : noLocks w₁ = true)
    (h2 : noLocks w₂ = true) : noLocks (w₁ ++ w₂) = true := by
  unfold noLocks at *
  rw [List.all_eq_true] at h1 h2 ⊢
  intro e he
  rcases List.mem_append.mp he with he | he
  · exact h1 e he
  · exact h2 e he

theorem mem_names_lockOnly {fs : DirFiles} {lk : String} {t : FData} {n : String}
    (h : n ∈ names (removeInDir (writeInDir fs lk t) lk)) : n ∈ names fs := by
  rw [names_removeInDir] at h
  have h1 := List.mem_filter.mp h
  have h2 := h1.1
  rw [names_writeInDir] at h2
  by_cases hl : lk ∈ names fs
  · rw [if_pos hl] at h2
    exact h2
  · rw [if_neg hl] at h2
    rcases List.mem_append.mp h2 with hm | hm
    · exact hm
    · simp at hm
      subst hm
      have := h1.2
      simp at this

theorem getNote_fst_of_exists {w : Workspace} {pid : String}
    (hex : noteExists w pid = true) :
    (getNote w pid).1 =
      removeFile (writeFile w (sanitize pid)
          (get_note_path w (sanitize pid) ++ ".lock") (FData.text ""))
        (sanitize pid) (get_note_path w (sanitize pid) ++ ".lock") := by
  unfold noteExists at hex
  unfold getNote withNoteLock
  simp only [hex, if_true]
  cases readText (writeFile w (sanitize pid)
      (get_note_path w (sanitize pid) ++ ".lock") (FData.text ""))
      (sanitize pid) (get_note_path w (sanitize pid)) <;> rfl

theorem patchNote_fst_of_exists {w : Workspace} {pid a : String}
    (hex : noteExists w pid = true) :
    (patchNote w pid a).1 =
      removeFile (writeFile w (sanitize pid)
          (get_note_path w (sanitize pid) ++ ".lock") (FData.text ""))
        (sanitize pid) (get_note_path w (sanitize pid) ++ ".lock") ∨
    ∃ m, (patchNote w pid a).1 =
      removeFile (writeFile (writeFile w (sanitize pid)
            (get_note_path w (sanitize pid) ++ ".lock") (FData.text ""))
          (sanitize pid) (get_note_path w (sanitize pid)) m)
        (sanitize pid) (get_note_path w (sanitize pid) ++ ".lock") := by
  unfold noteExists at hex
  unfold patchNote withNoteLock
  simp only [hex, if_true]
  cases readText (writeFile w (sanitize pid)
      (get_note_path w (sanitize pid) ++ ".lock") (FData.text ""))
      (sanitize pid) (get_note_path w (sanitize pid)) with
  | none => exact Or.inl rfl
  | some e => exact Or.inr ⟨_, rfl⟩

/-! ## Upload reject lemmas -/

theorem endsPdf_empty_false : endsWithStr ".pdf" (lowerStr "") = false := by decide

theorem uploadPaper_oversize {maxMb : Nat} {w : Workspace} {filename : String}
    {content : List Nat}
    (h1 : endsWithStr ".pdf" (lowerStr filename) = true)
    (h2 : content.length > maxMb * 1024 * 1024) :
    uploadPaper maxMb w filename content = (w, Except.error 500) := by
  have hne : ¬ filename = "" := by
    intro hh
    rw [hh, endsPdf_empty_false] at h1
    simp at h1
  unfold uploadPaper
  rw [if_neg (by
    push_neg
    exact ⟨hne, by rw [h1]⟩)]
  rw [if_pos h2]
  rfl

theorem uploadPdf_oversize {maxMb : Nat} {hash : List Nat → String} {w : Workspace}
    {filename : String} {content : List Nat}
    (h1 : endsWithStr ".pdf" (lowerStr filename) = true)
    (h2 : content.length > maxMb * 1024 * 1024) :
    uploadPdf maxMb hash w filename content = (w, Except.error 413) := by
  have hne : ¬ filename = "" := by
    intro hh
    rw [hh, endsPdf_empty_false] at h1
    simp at h1
  unfold uploadPdf
  rw [if_neg (by
    push_neg
    exact ⟨hne, by rw [h1]⟩)]
  rw [if_pos h2]
  rfl

/-! ## Note path stability across a locked write -/

theorem get_note_path_after_lockedWrite {w : Workspace} {d f : String} {fs : DirFiles}
    {x m : FData}
    (hld : lookupDir w d = some fs) (hf : dirLookup fs f = some x)
    (hfmd : endsWithStr ".md" f = true) :
    get_note_path (removeFile (writeFile (writeFile w d (f ++ ".lock")
        (FData.text "")) d f m) d (f ++ ".lock")) d = get_note_path w d := by
  have hmem : f ∈ names fs := by
    rw [← dirLookup_isSome_iff_mem_names, hf]
    rfl
  have hglob : globMd (removeInDir (writeInDir (writeInDir fs (f ++ ".lock")
      (FData.text "")) f m) (f ++ ".lock")) = globMd fs := by
    rw [globMd_lockedWrite fs m hfmd, if_pos hmem]
  unfold get_note_path
  rw [lookupDir_lockedWrite, if_pos rfl, hld]
  rw [show Option.map (fun fs => removeInDir (writeInDir (writeInDir fs (f ++ ".lock")
      (FData.text "")) f m) (f ++ ".lock")) (some fs) =
    some (removeInDir (writeInDir (writeInDir fs (f ++ ".lock")
      (FData.text "")) f m) (f ++ ".lock")) from rfl]
  rw [find_note_congr hglob d]

/-! ## Final helper layer -/

theorem find_pdf_some_eq (fs : DirFiles) :
    find_pdf (some fs) = (globPdf fs).head? := rfl

theorem filter_swap (l : List String) (p q : String → Bool) :
    (l.filter p).filter q = (l.filter q).filter p := by
  rw [List.filter_filter, List.filter_filter]
  apply List.filter_congr
  intro x _
  exact Bool.and_comm _ _

theorem render_markdown_nonempty {c : String} (h : ¬ c = "") :
    ¬ render_markdown c = "" := by
  unfold render_markdown
  rw [if_neg h]
  intro hc
  have hlen := congrArg (fun s => s.data.length) hc
  simp [String.data_append] at hlen

theorem readFile_lockedWrite_self {w : Workspace} {d f : String} {fs : DirFiles}
    (m : FData) (hld : lookupDir w d = some fs) :
    readFile (removeFile (writeFile (writeFile w d (f ++ ".lock") (FData.text ""))
        d f m) d (f ++ ".lock")) d f = some m := by
  unfold readFile
  rw [lookupDir_lockedWrite, if_pos rfl, hld]
  rw [show Option.map (fun fs => removeInDir (writeInDir (writeInDir fs (f ++ ".lock")
      (FData.text "")) f m) (f ++ ".lock")) (some fs) =
    some (removeInDir (writeInDir (writeInDir fs (f ++ ".lock")
      (FData.text "")) f m) (f ++ ".lock")) from rfl]
  rw [Option.some_bind]
  rw [dirLookup_lockedWrite]
  rw [if_neg (ne_append_lock f), if_pos rfl]

theorem lookupDir_append_self {w : Workspace} {d : String}
    (h : lookupEntry w d = none) (fs : DirFiles) :
    lookupDir (w ++ [(d, Entry.dir fs)]) d = some fs := by
  unfold lookupDir
  rw [lookupEntry_append_of_none _ h]
  simp [lookupEntry]

theorem createNote_file_entry {w : Workspace} {pid c : String} {x : FData}
    (h : lookupEntry w (sanitize pid) = some (Entry.file x)) :
    createNote w pid c = (w, Except.error ApiErr.internal) := by
  simp only [createNote]
  rw [show mkdirP w (sanitize pid) = none from by unfold mkdirP; rw [h]]

theorem globMd_single_md (d : String) (x : FData) :
    globMd [(d ++ ".md", x)] = [d ++ ".md"] := by
  unfold globMd
  simp [names, List.filter_cons, endsMd_append]

theorem createNote_ok_cases {w : Workspace} {pid c : String} {w1 : Workspace}
    {r : NoteView} (h : createNote w pid c = (w1, Except.ok r)) :
    r = ⟨c, render_markdown c⟩ ∧
    ((lookupEntry w (sanitize pid) = none ∧
        w1 = w ++ [(sanitize pid,
          Entry.dir [(sanitize pid ++ ".md", FData.text c)])]) ∨
     (∃ fs0, lookupDir w (sanitize pid) = some fs0 ∧ globMd fs0 = [] ∧
        w1 = removeFile (writeFile (writeFile w (sanitize pid)
            (sanitize pid ++ ".md" ++ ".lock") (FData.text ""))
          (sanitize pid) (sanitize pid ++ ".md") (FData.text c))
          (sanitize pid) (sanitize pid ++ ".md" ++ ".lock"))) := by
  cases he : lookupEntry w (sanitize pid) with
  | none =>
    rw [createNote_eq_absent he] at h
    rw [Prod.mk.injEq] at h
    have hr := h.2
    simp only [Except.ok.injEq] at hr
    exact ⟨hr.symm, Or.inl ⟨rfl, h.1.symm⟩⟩
  | some e =>
    cases e with
    | file x =>
      rw [createNote_file_entry he] at h
      rw [Prod.mk.injEq] at h
      exact absurd h.2 (by simp)
    | dir fs0 =>
      have hld : lookupDir w (sanitize pid) = some fs0 := by
        unfold lookupDir
        rw [he]
      by_cases hmd : globMd fs0 = []
      · rw [createNote_eq_no_md hld hmd] at h
        rw [Prod.mk.injEq] at h
        have hr := h.2
        simp only [Except.ok.injEq] at hr
        exact ⟨hr.symm, Or.inr ⟨fs0, hld, hmd, h.1.symm⟩⟩
      · have hex : noteExists w pid = true := note_fileExists_true_of_md hld hmd
        rw [createNote_conflict hex] at h
        rw [Prod.mk.injEq] at h
        exact absurd h.2 (by simp)

theorem get_note_path_after_create {w : Workspace} {pid c : String} {w1 : Workspace}
    {r : NoteView} (h : createNote w pid c = (w1, Except.ok r)) :
    get_note_path w1 (sanitize pid) = sanitize pid ++ ".md" ∧
    readFile w1 (sanitize pid) (sanitize pid ++ ".md") = some (FData.text c) := by
  obtain ⟨_, hcase⟩ := createNote_ok_cases h
  rcases hcase with ⟨habs, rfl⟩ | ⟨fs0, hld, hmd, rfl⟩
  · have hld1 : lookupDir (w ++ [(sanitize pid,
        Entry.dir [(sanitize pid ++ ".md", FData.text c)])]) (sanitize pid) =
        some [(sanitize pid ++ ".md", FData.text c)] := lookupDir_append_self habs _
    constructor
    · unfold get_note_path
      rw [hld1, find_note_single_md (globMd_single_md _ _) (nodot_sanitize pid)]
      rfl
    · unfold readFile
      rw [hld1]
      simp [dirLookup]
  · have hnotmem : sanitize pid ++ ".md" ∉ names fs0 := by
      intro hmem
      have : sanitize pid ++ ".md" ∈ globMd fs0 :=
        mem_globMd.mpr ⟨hmem, endsMd_append _⟩
      rw [hmd] at this
      simp at this
    have hld1 : lookupDir (removeFile (writeFile (writeFile w (sanitize pid)
        (sanitize pid ++ ".md" ++ ".lock") (FData.text ""))
        (sanitize pid) (sanitize pid ++ ".md") (FData.text c))
        (sanitize pid) (sanitize pid ++ ".md" ++ ".lock")) (sanitize pid) =
        some (removeInDir (writeInDir (writeInDir fs0
          (sanitize pid ++ ".md" ++ ".lock") (FData.text ""))
          (sanitize pid ++ ".md") (FData.text c))
          (sanitize pid ++ ".md" ++ ".lock")) := by
      rw [lookupDir_lockedWrite, if_pos rfl, hld]
      rfl
    have hglob : globMd (removeInDir (writeInDir (writeInDir fs0
        (sanitize pid ++ ".md" ++ ".lock") (FData.text ""))
        (sanitize pid ++ ".md") (FData.text c))
        (sanitize pid ++ ".md" ++ ".lock")) = [sanitize pid ++ ".md"] := by
      rw [globMd_lockedWrite fs0 (FData.text c) (endsMd_append _), if_neg hnotmem, hmd]
      rfl
    constructor
    · unfold get_note_path
      rw [hld1, find_note_single_md hglob (nodot_sanitize pid)]
      rfl
    · exact readFile_lockedWrite_self (FData.text c) hld

theorem getNote_after_create {w : Workspace} {pid c : String} {w1 : Workspace}
    {r : NoteView} (h : createNote w pid c = (w1, Except.ok r)) :
    (getNote w1 pid).2 = Except.ok ⟨univNL c, render_markdown (univNL c)⟩ := by
  obtain ⟨hfn, hread⟩ := get_note_path_after_create h
  have hread' : readFile w1 (sanitize pid) (get_note_path w1 (sanitize pid)) =
      some (FData.text c) := by
    rw [hfn]
    exact hread
  rw [getNote_eq_of_text hread']

/-! ## Claims -/

/-- C1: patching a note whose current (read) content is `e` writes and
returns exactly `e ++ "\n\n---\n\n" ++ a` when both `e` and the appended
content are non-empty, and their plain concatenation when either is empty
(`patchMerge`); in particular patching onto an empty note yields exactly
the appended content, and patching `b` after patching `a` onto a note
with non-empty content `e` yields `e ++ sep ++ a ++ sep ++ b` (for
carriage-return-free `a`, `b`, such as the literal `"A"` and `"B"`). -/
theorem claim_C1 (w : Workspace) (pid a b e h : String)
    (hget : (getNote w pid).2 = Except.ok ⟨e, h⟩) :
    ((patchNote w pid a).2 =
        Except.ok ⟨patchMerge e a, render_markdown (patchMerge e a)⟩ ∧
      readFile (patchNote w pid a).1 (sanitize pid)
          (get_note_path w (sanitize pid)) =
        some (FData.text (patchMerge e a))) ∧
    (e = "" → (patchNote w pid a).2 = Except.ok ⟨a, render_markdown a⟩) ∧
    (¬ e = "" → ¬ a = "" → ¬ b = "" → '\r' ∉ a.data → '\r' ∉ b.data →
      (patchNote (patchNote w pid a).1 pid b).2 =
        Except.ok ⟨e ++ "\n\n---\n\n" ++ a ++ "\n\n---\n\n" ++ b,
          render_markdown (e ++ "\n\n---\n\n" ++ a ++ "\n\n---\n\n" ++ b)⟩) := by
  obtain ⟨s, hs, hv⟩ := getNote_ok_inv hget
  have he : e = univNL s := congrArg NoteView.content hv
  obtain ⟨fs, hld, hdl⟩ := lookupDir_of_readFile_some hs
  have hp1 := patchNote_eq_of_text (a := a) hs
  refine ⟨⟨?_, ?_⟩, ?_, ?_⟩
  · rw [he]
    exact congrArg Prod.snd hp1
  · rw [he]
    rw [show (patchNote w pid a).1 = _ from congrArg Prod.fst hp1]
    exact readFile_lockedWrite_self _ hld
  · intro hee
    rw [he] at hee
    have hm : patchMerge (univNL s) a = a := by
      unfold patchMerge
      rw [if_neg (by intro hc; exact hc.1 hee)]
      rw [hee]
      rfl
    have h2 := congrArg Prod.snd hp1
    rw [hm] at h2
    exact h2
  · intro hne ha hb hcra hcrb
    have hmerge : patchMerge (univNL s) a = e ++ "\n\n---\n\n" ++ a := by
      rw [← he]
      unfold patchMerge
      rw [if_pos ⟨hne, ha⟩]
    have hw1 : (patchNote w pid a).1 =
        removeFile (writeFile (writeFile w (sanitize pid)
            (get_note_path w (sanitize pid) ++ ".lock") (FData.text ""))
          (sanitize pid) (get_note_path w (sanitize pid))
          (FData.text (e ++ "\n\n---\n\n" ++ a)))
          (sanitize pid) (get_note_path w (sanitize pid) ++ ".lock") := by
      rw [show (patchNote w pid a).1 = _ from congrArg Prod.fst hp1, hmerge]
    have hfn1 : get_note_path (patchNote w pid a).1 (sanitize pid) =
        get_note_path w (sanitize pid) := by
      rw [hw1]
      exact get_note_path_after_lockedWrite hld hdl
        (endsMd_get_note_path w (sanitize pid))
    have hread1 : readFile (patchNote w pid a).1 (sanitize pid)
        (get_note_path (patchNote w pid a).1 (sanitize pid)) =
        some (FData.text (e ++ "\n\n---\n\n" ++ a)) := by
      rw [hfn1, hw1]
      exact readFile_lockedWrite_self _ hld
    have hp2 := patchNote_eq_of_text (a := b) hread1
    have hcrm : '\r' ∉ (e ++ "\n\n---\n\n" ++ a).data := by
      rw [String.data_append, String.data_append]
      intro hmem
      rcases List.mem_append.mp hmem with hmem | hmem
      · rcases List.mem_append.mp hmem with hmem | hmem
        · rw [he] at hmem
          exact univNL_no_cr s hmem
        · exact absurd hmem (by decide)
      · exact hcra hmem
    have huniv : univNL (e ++ "\n\n---\n\n" ++ a) = e ++ "\n\n---\n\n" ++ a :=
      univNL_of_no_cr hcrm
    have hm1ne : ¬ (e ++ "\n\n---\n\n" ++ a) = "" := by
      intro hc
      have hlen := congrArg (fun s => s.data.length) hc
      simp [String.data_append] at hlen
    have hmerge2 : patchMerge (univNL (e ++ "\n\n---\n\n" ++ a)) b =
        e ++ "\n\n---\n\n" ++ a ++ "\n\n---\n\n" ++ b := by
      rw [huniv]
      unfold patchMerge
      rw [if_pos ⟨hm1ne, hb⟩]
    rw [show (patchNote (patchNote w pid a).1 pid b).2 = _ from congrArg Prod.snd hp2,
      hmerge2]

/-- C1 witness: on a note holding `"X"`, patching `"A"` then `"B"` yields
`"X\n\n---\n\nA\n\n---\n\nB"`. -/
theorem claim_C1_witness :
    (patchNote (patchNote [("p", Entry.dir [("p.md", FData.text "X")])] "p" "A").1
        "p" "B").2 =
      Except.ok ⟨"X\n\n---\n\nA\n\n---\n\nB",
        render_markdown "X\n\n---\n\nA\n\n---\n\nB"⟩ :=
  (claim_C1 [("p", Entry.dir [("p.md", FData.text "X")])] "p" "A" "B" "X"
      (render_markdown "X") (by decide)).2.2
    (by decide) (by decide) (by decide) (by decide) (by decide)

/-- C2 (code-bug evaluation): an oversized upload (52,428,801 bytes
against a 50 MB limit) through `papers.py::upload_paper` produces a 500
internal error — the handler evaluates the attribute
`status.HTTP_413_REQUEST_ENTITY_TOO_LOCUM`, which does not exist in the
status module, so the size check raises `AttributeError` instead of
returning 413 — while `pdf.py::upload_pdf` correctly rejects with 413;
in both cases the workspace is unchanged, so no file is written. -/
theorem claim_C2 :
    uploadPaper 50 [] "big.pdf" (List.replicate 52428801 0) =
      ([], Except.error 500) ∧
    uploadPdf 50 (fun _ => "d41d8cd9") [] "big.pdf" (List.replicate 52428801 0) =
      ([], Except.error 413) ∧
    starletteStatusAttr "HTTP_413_REQUEST_ENTITY_TOO_LOCUM" = none ∧
    starletteStatusAttr "HTTP_413_REQUEST_ENTITY_TOO_LARGE" = some 413 := by
  refine ⟨?_, ?_, rfl, rfl⟩
  · exact uploadPaper_oversize (by decide)
      (by rw [List.length_replicate]; decide)
  · exact uploadPdf_oversize (by decide)
      (by rw [List.length_replicate]; decide)

/-- C3 counterexample: on a directory whose scan order lists `b.pdf`
before `a.pdf`, the code's `find_pdf` returns `b.pdf`, not the
lexicographically-first `a.pdf` the spec describes. -/
theorem claim_C3_counterexample :
    find_pdf (some [("b.pdf", FData.bin []), ("a.pdf", FData.bin [])]) =
      some "b.pdf" ∧
    find_pdf_lexSpec (some [("b.pdf", FData.bin []), ("a.pdf", FData.bin [])]) =
      some "a.pdf" ∧
    ¬ find_pdf (some [("b.pdf", FData.bin []), ("a.pdf", FData.bin [])]) =
      find_pdf_lexSpec (some [("b.pdf", FData.bin []), ("a.pdf", FData.bin [])]) := by
  refine ⟨rfl, by decide, by decide⟩

/-- C3 (amended): `find_pdf` returns absent for a missing directory and
for a directory with no `.pdf` file; when it returns a file, that file is
the first `.pdf` in the directory's scan order (every earlier entry is
not a `.pdf`) — not necessarily the lexicographically-first.  (It is a
pure function of the directory listing, hence deterministic for an
unchanged directory.) -/
theorem claim_C3 :
    find_pdf none = none ∧
    (∀ fs : DirFiles, globPdf fs = [] → find_pdf (some fs) = none) ∧
    (∀ (fs : DirFiles) (f : String), find_pdf (some fs) = some f →
      ∃ l₁ l₂, names fs = l₁ ++ f :: l₂ ∧
        (∀ x ∈ l₁, endsWithStr ".pdf" x = false) ∧
        endsWithStr ".pdf" f = true) := by
  refine ⟨rfl, ?_, ?_⟩
  · intro fs hemp
    rw [find_pdf_some_eq, hemp]
    rfl
  · intro fs f hf
    rw [find_pdf_some_eq] at hf
    exact head?_filter_some hf

/-- C3 witness: a directory with only a note has no PDF; in a directory
scanning `x.txt` then `a.pdf`, the returned `a.pdf` is the first `.pdf`
in scan order. -/
theorem claim_C3_witness :
    find_pdf (some [("n.md", FData.text "")]) = none ∧
    ∃ l₁ l₂, names [("x.txt", FData.bin []), ("a.pdf", FData.bin [])] =
        l₁ ++ "a.pdf" :: l₂ ∧
      (∀ x ∈ l₁, endsWithStr ".pdf" x = false) ∧
      endsWithStr ".pdf" "a.pdf" = true :=
  ⟨claim_C3.2.1 _ (by decide), claim_C3.2.2 _ "a.pdf" (by decide)⟩

/-- C4 counterexample: with a directory holding `note.md` and a second
`z.md`, delete succeeds (removing the resolved `note.md`) but the
following read resolves `z.md` and succeeds instead of failing with
NotFound. -/
theorem claim_C4_counterexample :
    (deleteNote [("p", Entry.dir [("note.md", FData.text "x"),
        ("z.md", FData.text "y")])] "p").2 = Except.ok () ∧
    (getNote (deleteNote [("p", Entry.dir [("note.md", FData.text "x"),
        ("z.md", FData.text "y")])] "p").1 "p").2 =
      Except.ok ⟨"y", render_markdown "y"⟩ := by
  decide

/-- C4 (amended): the note store's state machine holds at every
operation — create on a paper whose note resolves fails with Conflict
regardless of content; read, update, patch and delete on a paper with no
resolving note fail with NotFound (hence delete of an absent note fails
with NotFound); and delete followed by read fails with NotFound provided
the deleted note was the only `.md` file in the paper directory (with
another `.md` file present, the read resolves that file instead). -/
theorem claim_C4 (w : Workspace) (pid c a : String) :
    (noteExists w pid = true →
      (createNote w pid c).2 = Except.error ApiErr.conflict) ∧
    (noteExists w pid = false →
      (getNote w pid).2 = Except.error ApiErr.notFound ∧
      (updateNote w pid c).2 = Except.error ApiErr.notFound ∧
      (patchNote w pid a).2 = Except.error ApiErr.notFound ∧
      (deleteNote w pid).2 = Except.error ApiErr.notFound) ∧
    (∀ fs, lookupDir w (sanitize pid) = some fs →
      globMd fs = [get_note_path w (sanitize pid)] →
      (deleteNote w pid).2 = Except.ok () ∧
      (getNote (deleteNote w pid).1 pid).2 = Except.error ApiErr.notFound) := by
  refine ⟨?_, ?_, ?_⟩
  · intro hex
    rw [createNote_conflict hex]
  · intro hex
    exact ⟨by rw [getNote_notFound hex], by rw [updateNote_notFound hex],
      by rw [patchNote_notFound hex], by rw [deleteNote_notFound hex]⟩
  · intro fs hld hglob
    have hmem : get_note_path w (sanitize pid) ∈ names fs := by
      have : get_note_path w (sanitize pid) ∈ globMd fs := by
        rw [hglob]
        simp
      exact (mem_globMd.mp this).1
    have hex : noteExists w pid = true := by
      unfold noteExists fileExists readFile
      rw [hld, Option.some_bind]
      rw [Option.isSome_iff_exists]
      rw [← dirLookup_isSome_iff_mem_names, Option.isSome_iff_exists] at hmem
      exact hmem
    have hdel := deleteNote_eq_of_exists hex
    refine ⟨by rw [hdel], ?_⟩
    have hld1 : lookupDir (deleteNote w pid).1 (sanitize pid) =
        some (removeInDir fs (get_note_path w (sanitize pid))) := by
      rw [show (deleteNote w pid).1 = _ from congrArg Prod.fst hdel]
      rw [lookupDir_removeFile, if_pos rfl, hld]
      rfl
    have hglob1 : globMd (removeInDir fs (get_note_path w (sanitize pid))) = [] := by
      rw [globMd_eq_names_filter, names_removeInDir, filter_swap]
      rw [← globMd_eq_names_filter, hglob]
      simp [List.filter_cons]
    have hex1 : noteExists (deleteNote w pid).1 pid = false :=
      note_fileExists_false_of_no_md hld1 hglob1
    rw [getNote_notFound hex1]

/-- C4 witness: conflict on an existing note; NotFound on an absent one;
delete of a single-`.md` note then read gives NotFound. -/
theorem claim_C4_witness :
    (createNote [("p", Entry.dir [("note.md", FData.text "x")])] "p" "c").2 =
      Except.error ApiErr.conflict ∧
    (getNote [] "q").2 = Except.error ApiErr.notFound ∧
    (deleteNote [("p", Entry.dir [("note.md", FData.text "x")])] "p").2 =
      Except.ok () ∧
    (getNote (deleteNote [("p", Entry.dir [("note.md", FData.text "x")])] "p").1
        "p").2 = Except.error ApiErr.notFound :=
  ⟨(claim_C4 [("p", Entry.dir [("note.md", FData.text "x")])] "p" "c" "a").1
      (by decide),
   ((claim_C4 [] "q" "c" "a").2.1 (by decide)).1,
   ((claim_C4 [("p", Entry.dir [("note.md", FData.text "x")])] "p" "c" "a").2.2
      [("note.md", FData.text "x")] (by decide) (by decide)).1,
   ((claim_C4 [("p", Entry.dir [("note.md", FData.text "x")])] "p" "c" "a").2.2
      [("note.md", FData.text "x")] (by decide) (by decide)).2⟩

/-- C5 counterexample: create with content `"a\r"` succeeds and echoes
the content verbatim, but the following read returns `"a\n"` — the
text-mode read applies universal-newline translation, so the round trip
is not byte-for-byte. -/
theorem claim_C5_counterexample :
    (createNote [("p", Entry.dir [])] "p" "a\r").2 =
      Except.ok ⟨"a\r", render_markdown "a\r"⟩ ∧
    (getNote (createNote [("p", Entry.dir [])] "p" "a\r").1 "p").2 =
      Except.ok ⟨"a\n", render_markdown "a\n"⟩ ∧
    ¬ ("a\n" : String) = "a\r" := by
  decide

/-- C5 (amended): for every successful create, the create response echoes
the content verbatim, and create-then-read returns exactly the content
passed to create whenever it contains no carriage return (in general the
read applies universal-newline translation); the rendered HTML is
non-empty whenever the content is non-empty (the Markdown renderer is the
spec-modelled external collaborator). -/
theorem claim_C5 (w : Workspace) (pid c : String) (w1 : Workspace) (r : NoteView)
    (hcr : '\r' ∉ c.data)
    (hok : createNote w pid c = (w1, Except.ok r)) :
    r = ⟨c, render_markdown c⟩ ∧
    (getNote w1 pid).2 = Except.ok ⟨c, render_markdown c⟩ ∧
    (¬ c = "" → ¬ render_markdown c = "") := by
  have hu : univNL c = c := univNL_of_no_cr hcr
  refine ⟨(createNote_ok_cases hok).1, ?_, fun hc => render_markdown_nonempty hc⟩
  rw [getNote_after_create hok, hu]

/-- C5 witness: create `"hello"` then read returns `"hello"` with
non-empty HTML. -/
theorem claim_C5_witness :
    (getNote [("p1", Entry.dir [("p1.md", FData.text "hello")])] "p1").2 =
      Except.ok ⟨"hello", render_markdown "hello"⟩ ∧
    ¬ render_markdown "hello" = "" := by
  have h := claim_C5 [] "p1" "hello"
    [("p1", Entry.dir [("p1.md", FData.text "hello")])]
    ⟨"hello", "<p>hello</p>"⟩ (by decide) (by decide)
  exact ⟨h.2.1, h.2.2 (by decide)⟩

theorem noLocks_lockedWrite {w : Workspace} {d f : String} {m : FData}
    (h : noLocks w = true) (hf : endsWithStr ".lock" f = false) :
    noLocks (removeFile (writeFile (writeFile w d (f ++ ".lock") (FData.text ""))
      d f m) d (f ++ ".lock")) = true := by
  unfold writeFile removeFile
  rw [updateDir_updateDir, updateDir_updateDir]
  apply noLocks_updateDir h
  intro fs hfs n hn
  rcases mem_names_lockedWrite hn with rfl | hmem
  · exact hf
  · exact hfs n hmem

theorem noLocks_lockOnly {w : Workspace} {d f : String}
    (h : noLocks w = true) :
    noLocks (removeFile (writeFile w d (f ++ ".lock") (FData.text ""))
      d (f ++ ".lock")) = true := by
  unfold writeFile removeFile
  rw [updateDir_updateDir]
  apply noLocks_updateDir h
  intro fs hfs n hn
  exact hfs n (mem_names_lockOnly hn)

theorem noLocks_single_note (d c : String) :
    noLocks [(d, Entry.dir [(d ++ ".md", FData.text c)])] = true := by
  unfold noLocks
  rw [List.all_cons, List.all_nil, Bool.and_true]
  simp [names, endsLock_false_of_endsMd (endsMd_append d)]

/-- C6: every lock-protected note operation (create, read, update, patch)
removes its `.lock` sidecar on every exit path — including the exception
paths, since `__exit__` runs on them — so a workspace with no `.lock`
file still has none after the operation. -/
theorem claim_C6 (w : Workspace) (pid c a : String) (h : noLocks w = true) :
    noLocks (createNote w pid c).1 = true ∧
    noLocks (getNote w pid).1 = true ∧
    noLocks (updateNote w pid c).1 = true ∧
    noLocks (patchNote w pid a).1 = true := by
  refine ⟨?_, ?_, ?_, ?_⟩
  · cases he : lookupEntry w (sanitize pid) with
    | none =>
      rw [createNote_eq_absent he]
      exact noLocks_append h (noLocks_single_note _ c)
    | some e =>
      cases e with
      | file x =>
        rw [createNote_file_entry he]
        exact h
      | dir fs0 =>
        have hld : lookupDir w (sanitize pid) = some fs0 := by
          unfold lookupDir
          rw [he]
        by_cases hmd : globMd fs0 = []
        · rw [createNote_eq_no_md hld hmd]
          exact noLocks_lockedWrite h
            (endsLock_false_of_endsMd (endsMd_append (sanitize pid)))
        · rw [createNote_conflict (note_fileExists_true_of_md hld hmd)]
          exact h
  · by_cases hex : noteExists w pid = true
    · rw [getNote_fst_of_exists hex]
      exact noLocks_lockOnly h
    · rw [getNote_notFound (Bool.eq_false_iff.mpr hex)]
      exact h
  · by_cases hex : noteExists w pid = true
    · rw [updateNote_eq_of_exists hex]
      exact noLocks_lockedWrite h
        (endsLock_false_of_endsMd (endsMd_get_note_path w (sanitize pid)))
    · rw [updateNote_notFound (Bool.eq_false_iff.mpr hex)]
      exact h
  · by_cases hex : noteExists w pid = true
    · rcases patchNote_fst_of_exists (a := a) hex with heq | ⟨m, heq⟩
      · rw [heq]
        exact noLocks_lockOnly h
      · rw [heq]
        exact noLocks_lockedWrite h
          (endsLock_false_of_endsMd (endsMd_get_note_path w (sanitize pid)))
    · rw [patchNote_notFound (Bool.eq_false_iff.mpr hex)]
      exact h

/-- C6 witness: no `.lock` file remains after each operation on a
concrete one-note workspace. -/
theorem claim_C6_witness :
    noLocks (createNote [("p", Entry.dir [("p.md", FData.text "x")])] "p" "c").1 =
      true ∧
    noLocks (getNote [("p", Entry.dir [("p.md", FData.text "x")])] "p").1 = true ∧
    noLocks (updateNote [("p", Entry.dir [("p.md", FData.text "x")])] "p" "c").1 =
      true ∧
    noLocks (patchNote [("p", Entry.dir [("p.md", FData.text "x")])] "p" "a").1 =
      true :=
  claim_C6 [("p", Entry.dir [("p.md", FData.text "x")])] "p" "c" "a" (by decide)

/-- C7: `list_papers` keeps exactly the workspace subdirectories for
which `find_pdf` succeeds (so a directory with only an `.md` file is
excluded) and returns their names in ascending lexicographic
(code-point) order. -/
theorem claim_C7 (w : Workspace) :
    List.Sorted (fun a b => strLe a b = true) (list_papers w) ∧
    ∀ n, n ∈ list_papers w ↔ ∃ e ∈ w, e.1 = n ∧ hasPdf e.2 = true :=
  ⟨sorted_pySorted _, fun _ => mem_list_papers_iff⟩

/-- C7 witness: a PDF-holding directory is listed. -/
theorem claim_C7_witness :
    "b" ∈ list_papers [("b", Entry.dir [("x.pdf", FData.bin [])]),
      ("c", Entry.dir [("n.md", FData.text "")])] :=
  ((claim_C7 [("b", Entry.dir [("x.pdf", FData.bin [])]),
      ("c", Entry.dir [("n.md", FData.text "")])]).2 "b").mpr
    ⟨("b", Entry.dir [("x.pdf", FData.bin [])]), by decide, rfl, by decide⟩

/-- C8: the AI `ask` error mapping classifies each upstream error message
into exactly one status by sniffing the message, with the code's
precedence: a rate-limit marker gives 429; otherwise an authentication
marker gives 401; otherwise a quota-exhaustion marker gives 402; and a
message with none of the markers gives 500. -/
theorem claim_C8 (msg : String) :
    (classifyAiError msg = 429 ∨ classifyAiError msg = 401 ∨
      classifyAiError msg = 402 ∨ classifyAiError msg = 500) ∧
    ((strIn "rate_limit" (lowerStr msg) = true ∨ strIn "429" msg = true) →
      classifyAiError msg = 429) ∧
    (¬ (strIn "rate_limit" (lowerStr msg) = true ∨ strIn "429" msg = true) →
      (strIn "authentication" (lowerStr msg) = true ∨ strIn "401" msg = true) →
      classifyAiError msg = 401) ∧
    (¬ (strIn "rate_limit" (lowerStr msg) = true ∨ strIn "429" msg = true) →
      ¬ (strIn "authentication" (lowerStr msg) = true ∨ strIn "401" msg = true) →
      strIn "insufficient_quota" (lowerStr msg) = true →
      classifyAiError msg = 402) ∧
    (¬ (strIn "rate_limit" (lowerStr msg) = true ∨ strIn "429" msg = true) →
      ¬ (strIn "authentication" (lowerStr msg) = true ∨ strIn "401" msg = true) →
      ¬ strIn "insufficient_quota" (lowerStr msg) = true →
      classifyAiError msg = 500) := by
  have heq : classifyAiError msg =
      if strIn "rate_limit" (lowerStr msg) || strIn "429" msg then 429
      else if strIn "authentication" (lowerStr msg) || strIn "401" msg then 401
      else if strIn "insufficient_quota" (lowerStr msg) then 402
      else 500 := rfl
  by_cases h1 : (strIn "rate_limit" (lowerStr msg) || strIn "429" msg) = true
  · have hc : classifyAiError msg = 429 := by rw [heq, if_pos h1]
    refine ⟨Or.inl hc, fun _ => hc, ?_, ?_, ?_⟩
    · intro hn _
      exact absurd ((Bool.or_eq_true _ _).mp h1) hn
    · intro hn _ _
      exact absurd ((Bool.or_eq_true _ _).mp h1) hn
    · intro hn _ _
      exact absurd ((Bool.or_eq_true _ _).mp h1) hn
  · have hnor : ¬ (strIn "rate_limit" (lowerStr msg) = true ∨
        strIn "429" msg = true) :=
      fun hor => h1 ((Bool.or_eq_true _ _).mpr hor)
    by_cases h2 : (strIn "authentication" (lowerStr msg) || strIn "401" msg) = true
    · have hc : classifyAiError msg = 401 := by rw [heq, if_neg h1, if_pos h2]
      refine ⟨Or.inr (Or.inl hc), fun hor => absurd hor hnor, fun _ _ => hc,
        ?_, ?_⟩
      · intro _ hn _
        exact absurd ((Bool.or_eq_true _ _).mp h2) hn
      · intro _ hn _
        exact absurd ((Bool.or_eq_true _ _).mp h2) hn
    · have hnor2 : ¬ (strIn "authentication" (lowerStr msg) = true ∨
          strIn "401" msg = true) :=
        fun hor => h2 ((Bool.or_eq_true _ _).mpr hor)
      by_cases h3 : strIn "insufficient_quota" (lowerStr msg) = true
      · have hc : classifyAiError msg = 402 := by
          rw [heq, if_neg h1, if_neg h2, if_pos h3]
        exact ⟨Or.inr (Or.inr (Or.inl hc)), fun hor => absurd hor hnor,
          fun _ hor => absurd hor hnor2, fun _ _ _ => hc,
          fun _ _ hq => absurd h3 hq⟩
      · have hc : classifyAiError msg = 500 := by
          rw [heq, if_neg h1, if_neg h2, if_neg h3]
        exact ⟨Or.inr (Or.inr (Or.inr hc)), fun hor => absurd hor hnor,
          fun _ hor => absurd hor hnor2, fun _ _ hq => absurd hq h3,
          fun _ _ _ => hc⟩

/-- C8 witness: one concrete message per category. -/
theorem claim_C8_witness :
    classifyAiError "OpenAI rate_limit reached" = 429 ∧
    classifyAiError "authentication failed" = 401 ∧
    classifyAiError "insufficient_quota for account" = 402 ∧
    classifyAiError "connection reset" = 500 :=
  ⟨(claim_C8 "OpenAI rate_limit reached").2.1 (Or.inl (by decide)),
   (claim_C8 "authentication failed").2.2.1 (by decide) (Or.inl (by decide)),
   (claim_C8 "insufficient_quota for account").2.2.2.1 (by decide) (by decide)
     (by decide),
   (claim_C8 "connection reset").2.2.2.2 (by decide) (by decide) (by decide)⟩

/-- C9: when the paper directory is absent or holds no `.md` file at
creation time, create succeeds and writes the note to the file named
`<safe_id>.md` (which resolution then returns); and path resolution only
returns `note.md` when such a file is already present in the
directory. -/
theorem claim_C9 (w : Workspace) (pid c : String) :
    ((lookupEntry w (sanitize pid) = none ∨
        ∃ fs, lookupDir w (sanitize pid) = some fs ∧ globMd fs = []) →
      ∃ w1 r, createNote w pid c = (w1, Except.ok r) ∧
        readFile w1 (sanitize pid) (sanitize pid ++ ".md") = some (FData.text c) ∧
        get_note_path w1 (sanitize pid) = sanitize pid ++ ".md") ∧
    (∀ (fs : DirFiles) (d : String), find_note (some fs) d = some "note.md" →
      "note.md" ∈ names fs) := by
  constructor
  · intro hcase
    rcases hcase with habs | ⟨fs, hld, hmd⟩
    · refine ⟨_, _, @createNote_eq_absent w pid c habs, ?_⟩
      have hp := get_note_path_after_create (@createNote_eq_absent w pid c habs)
      exact ⟨hp.2, hp.1⟩
    · refine ⟨_, _, @createNote_eq_no_md w pid c fs hld hmd, ?_⟩
      have hp := get_note_path_after_create (@createNote_eq_no_md w pid c fs hld hmd)
      exact ⟨hp.2, hp.1⟩
  · intro fs d hf
    exact (find_note_some hf).1

/-- C9 witness: creating in an absent directory writes `p2.md`. -/
theorem claim_C9_witness :
    ∃ w1 r, createNote [] "p2" "n" = (w1, Except.ok r) ∧
      readFile w1 (sanitize "p2") (sanitize "p2" ++ ".md") =
        some (FData.text "n") ∧
      get_note_path w1 (sanitize "p2") = sanitize "p2" ++ ".md" :=
  (claim_C9 [] "p2" "n").1 (Or.inl (by decide))

/-- C10: note creation never fails with NotFound; when the paper
directory does not exist, create succeeds by creating it (with the note
file inside), and the resulting PDF-less directory is excluded from
`list_papers`. -/
theorem claim_C10 (w : Workspace) (pid c : String) :
    (createNote w pid c).2 ≠ Except.error ApiErr.notFound ∧
    (lookupEntry w (sanitize pid) = none →
      ∃ r, createNote w pid c =
          (w ++ [(sanitize pid,
            Entry.dir [(sanitize pid ++ ".md", FData.text c)])],
           Except.ok r) ∧
        find_pdf (lookupDir (createNote w pid c).1 (sanitize pid)) = none ∧
        sanitize pid ∉ list_papers (createNote w pid c).1) := by
  refine ⟨createNote_never_notFound w pid c, ?_⟩
  intro habs
  have heq := @createNote_eq_absent w pid c habs
  have hfst : (createNote w pid c).1 =
      w ++ [(sanitize pid, Entry.dir [(sanitize pid ++ ".md", FData.text c)])] := by
    rw [heq]
  have hpdf : globPdf [(sanitize pid ++ ".md", FData.text c)] = [] := by
    unfold globPdf
    simp [names, List.filter_cons, endsPdf_append_md_false]
  refine ⟨_, heq, ?_, ?_⟩
  · rw [hfst]
    rw [lookupDir_append_self habs]
    rw [find_pdf_some_eq, hpdf]
    rfl
  · intro hmem
    rw [hfst, mem_list_papers_iff] at hmem
    obtain ⟨e, he, hen, hp⟩ := hmem
    rcases List.mem_append.mp he with hw | hnew
    · exact (lookupEntry_eq_none_iff.mp habs e hw) hen
    · simp only [List.mem_singleton] at hnew
      subst hnew
      simp only [hasPdf] at hp
      rw [find_pdf_some_eq, hpdf] at hp
      simp at hp

/-- C10 witness: creating a note for an unknown paper in an empty
workspace succeeds and the new directory is not listed as a paper. -/
theorem claim_C10_witness :
    (createNote [] "p3" "note").2 ≠ Except.error ApiErr.notFound ∧
    ∃ r, createNote [] "p3" "note" =
        ([] ++ [(sanitize "p3",
          Entry.dir [(sanitize "p3" ++ ".md", FData.text "note")])],
         Except.ok r) ∧
      find_pdf (lookupDir (createNote [] "p3" "note").1 (sanitize "p3")) = none ∧
      sanitize "p3" ∉ list_papers (createNote [] "p3" "note").1 :=
  ⟨(claim_C10 [] "p3" "note").1, (claim_C10 [] "p3" "note").2 (by decide)⟩

example : univNL "a\r\nb\rc" = "a\nb\nc" := by decide
example : pstem "note.md" = "note" := by decide
example : pstem ".md" = ".md" := by decide
example : pstem "a.b.md" = "a.b" := by decide
example : sanitize "a/b..c d-e_f" = "abc d-e_f" := by decide
example : find_pdf (some [("b.pdf", FData.bin []), ("a.pdf", FData.bin [])]) = some "b.pdf" := by
  decide
example : find_note (some [("x.md", FData.text "h"), ("p.md", FData.text "g")]) "p" =
    some "p.md" := by decide
example :
    list_papers [("b", Entry.dir [("x.pdf", FData.bin [])]), ("c", Entry.dir [("n.md", FData.text "")]),
      ("a", Entry.dir [("y.pdf", FData.bin [])])] = ["a", "b"] := by decide

end APR
